import Mathlib

/-!
Verification of the repository-preparation core (repo_prep.py) of Sensebase.

The Python module is shallowly embedded: every function that the claims
touch is translated into an executable Lean definition over plain data
(strings, char lists, natural numbers).  Lines of text are modelled as
lists of characters; whole texts as Lean strings.  Fallible filesystem
reads are modelled as Option values.  While-loops over a line array with
a moving index are rendered as structurally recursive functions over the
suffix of lines not yet consumed; the two scanners whose loops can also
resume after an inner recursive walk carry an explicit fuel parameter
(one unit per loop iteration; every iteration consumes at least one
input line, so the instantiation with length + 1 never exhausts it).
-/

/-! ## Character and line helpers (Python str primitives) -/

/-- A single line of text, as produced by Python splitlines. -/
abbrev Line := List Char

/-- Python whitespace (the ASCII part of str.strip / regex backslash-s). -/
def isPySpace (c : Char) : Bool :=
  c == ' ' || c == '\t' || c == '\n' || c == '\r' || c == '\x0b' || c == '\x0c'

/-- Python line.lstrip(). -/
def lstripL (l : Line) : Line := l.dropWhile isPySpace

/-- Python line.rstrip(). -/
def rstripL (l : Line) : Line := (l.reverse.dropWhile isPySpace).reverse

/-- Python line.strip() == "" (the line is blank). -/
def isBlankL (l : Line) : Bool := l.all isPySpace

/-- Python len(line) - len(line.lstrip()): the indentation width. -/
def indentOf (l : Line) : Nat := l.length - (lstripL l).length

/-- Python line.rstrip().endswith(":"). -/
def endsColon (l : Line) : Bool :=
  match (rstripL l).getLast? with
  | some c => c == ':'
  | none => false

/-- Python line.startswith(p) on a char-list line. -/
def startsWithL (p : String) (l : Line) : Bool := p.toList.isPrefixOf l

/-- Python substring test: pat in s (empty pattern is always contained). -/
def containsSub (pat : Line) : Line → Bool
  | [] => pat.isEmpty
  | c :: t => pat.isPrefixOf (c :: t) || containsSub pat t

/-- Substring test on strings. -/
def containsStr (pat s : String) : Bool := containsSub pat.toList s.toList

/-- Python s.lower() (ASCII; the names involved are ASCII). -/
def toLowerStr (s : String) : String := String.mk (s.toList.map Char.toLower)

/-- Python s.startswith(p) on strings. -/
def strStarts (s p : String) : Bool := p.toList.isPrefixOf s.toList

/-- Worker for countSub: skip counts characters still covered by the last
match (non-overlapping scan). -/
def countSubAux (pat : Line) : Nat → Line → Nat
  | _, [] => 0
  | skip + 1, _ :: t => countSubAux pat skip t
  | 0, c :: t =>
    if pat.isPrefixOf (c :: t) && !pat.isEmpty then
      1 + countSubAux pat (pat.length - 1) t
    else
      countSubAux pat 0 t

/-- Python s.count(pat): non-overlapping occurrences, scanning left to right.
Only used with a non-empty pattern (a 3-char docstring quote). -/
def countSub (pat : Line) (s : Line) : Nat := countSubAux pat 0 s

/-- Count occurrences of a character in a line (Python line.count(c)). -/
def countCh (c : Char) (l : Line) : Nat := l.count c

/-- A run of n spaces (Python " " * n). -/
def spacesL (n : Nat) : Line := List.replicate n ' '

/-! ## Python str.splitlines

Python recognises a fixed set of line boundaries, with a carriage return
immediately followed by a newline consumed as a single boundary.  With
keepends the boundary characters stay attached to their line. -/

/-- Python universal line-boundary characters. -/
def isLineBoundary (c : Char) : Bool :=
  c == '\n' || c == '\r' || c == '\x0b' || c == '\x0c' ||
  c == '\x1c' || c == '\x1d' || c == '\x1e' || c == '\x85' ||
  c == '\u2028' || c == '\u2029'

/-- Worker for splitlines; cur is the reversed current line. -/
def splitlinesAux (keep : Bool) (cur : Line) : Line → List Line
  | [] => if cur.isEmpty then [] else [cur.reverse]
  | '\r' :: '\n' :: rest =>
    (cur.reverse ++ (if keep then ['\r', '\n'] else [])) :: splitlinesAux keep [] rest
  | '\r' :: rest =>
    (cur.reverse ++ (if keep then ['\r'] else [])) :: splitlinesAux keep [] rest
  | c :: rest =>
    if isLineBoundary c then
      (cur.reverse ++ (if keep then [c] else [])) :: splitlinesAux keep [] rest
    else
      splitlinesAux keep (c :: cur) rest

/-- Python content.splitlines(keepends) giving char-list lines. -/
def pySplitlines (keep : Bool) (s : String) : List Line := splitlinesAux keep [] s.toList

/-- Join extracted lines back with newlines (Python "\n".join(result)). -/
def joinNL (ls : List Line) : String := String.intercalate "\n" (ls.map String.mk)

/-! ## pathlib name components

Path.suffix is the extension including the dot, non-empty only when the
last dot sits strictly inside the name; Path.stem is the rest. -/

/-- Index of the last dot of a name, if any. -/
def lastDotIdx (l : Line) : Option Nat :=
  (l.enum.filterMap fun p => if p.2 == '.' then some p.1 else none).getLast?

/-- pathlib Path(name).suffix. -/
def pySuffix (name : String) : String :=
  let l := name.toList
  match lastDotIdx l with
  | some i => if 0 < i ∧ i < l.length - 1 then String.mk (l.drop i) else ""
  | none => ""

/-- pathlib Path(name).stem. -/
def pyStem (name : String) : String :=
  let l := name.toList
  match lastDotIdx l with
  | some i => if 0 < i ∧ i < l.length - 1 then String.mk (l.take i) else name
  | none => name

/-! ## Constants of repo_prep.py -/

def BINARY_EXTENSIONS : List String :=
  [".png", ".jpg", ".jpeg", ".gif", ".bmp", ".ico", ".svg", ".webp", ".tiff",
   ".woff", ".woff2", ".ttf", ".otf", ".eot",
   ".zip", ".tar", ".gz", ".bz2", ".xz", ".rar", ".7z",
   ".pyc", ".pyo", ".class", ".o", ".so", ".dylib", ".dll", ".exe",
   ".jar", ".war", ".ear",
   ".mp3", ".mp4", ".avi", ".mov", ".wav", ".flac",
   ".pdf", ".doc", ".docx", ".xls", ".xlsx", ".ppt", ".pptx",
   ".db", ".sqlite", ".sqlite3"]

def LOCK_FILES : List String :=
  ["package-lock.json", "yarn.lock", "pnpm-lock.yaml",
   "poetry.lock", "Cargo.lock", "go.sum", "Gemfile.lock",
   "composer.lock", "Pipfile.lock"]

def ENTRY_POINT_NAMES : List String :=
  ["main.py", "app.py", "index.ts", "index.js", "application.java",
   "main.java", "main.go", "server.py", "server.js", "server.ts"]

def CONFIG_FILE_NAMES : List String :=
  ["docker-compose.yml", "docker-compose.yaml", "docker-compose.override.yml",
   "dockerfile", "pom.xml", "build.gradle", "build.gradle.kts",
   "package.json", "go.mod", "pyproject.toml", "cargo.toml",
   "requirements.txt", "gemfile", "makefile", "cmakelists.txt",
   "tsconfig.json", "webpack.config.js", "vite.config.ts", "vite.config.js"]

def CONFIG_EXTENSIONS : List String := [".yaml", ".yml", ".toml", ".ini"]

def TIER1_NAME_KEYWORDS : List String :=
  ["route", "controller", "handler", "endpoint",
   "model", "schema", "entity", "migration"]

def SOURCE_EXTENSIONS : List String :=
  [".py", ".java", ".go", ".js", ".ts", ".jsx", ".tsx",
   ".rb", ".rs", ".cs", ".php", ".sql", ".graphql", ".proto"]

def EXT_TO_LANGUAGE : List (String × String) :=
  [(".py", "python"), (".pyi", "python"), (".java", "java"), (".go", "go"),
   (".js", "javascript"), (".jsx", "javascript"),
   (".ts", "typescript"), (".tsx", "typescript"),
   (".rb", "ruby"), (".rs", "rust"), (".cs", "csharp"), (".php", "php"),
   (".sql", "sql"), (".graphql", "graphql"), (".gql", "graphql"),
   (".proto", "protobuf"), (".yaml", "yaml"), (".yml", "yaml"),
   (".toml", "toml"), (".json", "json"), (".xml", "xml"),
   (".ini", "ini"), (".cfg", "ini"), (".md", "markdown"),
   (".rst", "restructuredtext"), (".txt", "text"), (".sh", "bash"),
   (".bash", "bash"), (".zsh", "zsh"), (".dockerfile", "dockerfile")]

/-! ## RepoFilePreparator._is_binary

The sniff argument models the raw bytes obtainable from the file; none
models an OSError while opening or reading. -/

def is_binary (name : String) (sniff : Option (List Nat)) : Bool :=
  if BINARY_EXTENSIONS.contains (toLowerStr (pySuffix name)) then true
  else if LOCK_FILES.contains (toLowerStr name) then true
  else
    match sniff with
    | none => true
    | some chunk => (chunk.take 8192).contains 0

/-! ## RepoFilePreparator._classify_file

The function of the relative-path components of the file (the file name
is the last component).  The nested return-1-only-for-source-extensions
check of the name-keyword rule falls through on failure in the source,
which is rendered here as a conjunction guarding the same branch. -/

def classify_file (relParts : List String) : Nat :=
  let name := (relParts.getLast?).getD ""
  let nameLower := toLowerStr name
  let stemLower := toLowerStr (pyStem name)
  let suffixLower := toLowerStr (pySuffix name)
  if strStarts stemLower "readme" || strStarts stemLower "contributing" ||
     strStarts stemLower "changelog" then 1
  else if ENTRY_POINT_NAMES.contains nameLower then 1
  else if CONFIG_FILE_NAMES.contains nameLower then 1
  else if stemLower == "dockerfile" || strStarts nameLower "dockerfile." then 1
  else if strStarts nameLower "docker-compose" then 1
  else if TIER1_NAME_KEYWORDS.any (fun kw => containsStr kw stemLower) &&
          SOURCE_EXTENSIONS.contains suffixLower then 1
  else if CONFIG_EXTENSIONS.contains suffixLower &&
          (relParts.length == 1 ||
           (relParts.length == 2 && (toLowerStr (relParts.headD "") == "config"))) then 1
  else if SOURCE_EXTENSIONS.contains suffixLower then 2
  else 3

/-! ## RepoFilePreparator._detect_language -/

def detect_language (name : String) : String :=
  if strStarts (toLowerStr name) "dockerfile" then "dockerfile"
  else
    match EXT_TO_LANGUAGE.lookup (toLowerStr (pySuffix name)) with
    | some lang => lang
    | none => "unknown"

/-! ## RepoFilePreparator._estimate_tokens -/

def estimate_tokens (s : String) : Nat := s.length / 4

/-! ## Shared scanner helpers -/

/-- Blank-line compression: append one empty line unless the last kept
line is already blank (Python: if result and result[-1].strip() != "",
append the empty string). -/
def blankCompress (acc : List Line) : List Line :=
  match acc.getLast? with
  | some last => if isBlankL last then acc else acc ++ [[]]
  | none => acc

/-- ASCII word character (regex backslash-w). -/
def isWordChar (c : Char) : Bool := c.isAlphanum || c == '_'

/-- The literal keyword followed by at least one whitespace character
(regex kw followed by backslash-s-plus). -/
def kwThenSpace (kw : String) (s : Line) : Bool :=
  kw.toList.isPrefixOf s &&
  (match s.drop kw.length with
   | c :: _ => isPySpace c
   | [] => false)

/-- After optional whitespace there is at least one word character
(regex backslash-s-star backslash-w). -/
def wordAfterSpaces (t : Line) : Bool :=
  match t.dropWhile isPySpace with
  | c :: _ => isWordChar c
  | [] => false

/-- Last character test (Python rstripped.endswith of a one-char text). -/
def endsWithCh (c : Char) (l : Line) : Bool :=
  match l.getLast? with
  | some x => x == c
  | none => false

/-- Grab a block comment: append lines until one contains the closing
marker (consumed too); at end of input just stop.  The current line is
the head of the first argument. -/
def grabBlockComment : List Line → List Line → (List Line × List Line)
  | [], acc => ([], acc)
  | l :: rs, acc =>
    if containsSub "*/".toList l then (rs, acc ++ [l])
    else grabBlockComment rs (acc ++ [l])

/-- Skip a brace-delimited block: consume lines, adding the brace delta
of each, until the depth is no longer positive (Python loops of
_skip_brace_block / _skip_brace_block_from and the inline body skips). -/
def skipBraceGo (depth : Int) : List Line → List Line
  | [] => []
  | l :: rs =>
    if depth ≤ 0 then l :: rs
    else skipBraceGo (depth + (countCh '\x7b' l : Int) - (countCh '\x7d' l : Int)) rs

/-- Multi-line declaration continuation: append lines while the previous
line does not contain an opening brace. Returns (previous line, rest,
accumulated output). -/
def contUntilBraceInPrev (prev : Line) : List Line → List Line → (Line × List Line × List Line)
  | rest, acc =>
    if containsSub ['\x7b'] prev then (prev, rest, acc)
    else
      match rest with
      | [] => (prev, [], acc)
      | l :: rs => contUntilBraceInPrev l rs (acc ++ [l])

/-! ## RepoFilePreparator._extract_python_signatures

Regex matchers rendered as character scans.  Optional regex groups are
translated as a disjunction of the take and skip readings, which covers
regex backtracking. -/

/-- Regex of class declarations: optional indentation, the class keyword,
whitespace. -/
def matchesClassDecl (line : Line) : Bool := kwThenSpace "class" (lstripL line)

/-- Regex of def declarations: optional indentation, optional async,
the def keyword, whitespace. -/
def matchesDefDecl (line : Line) : Bool :=
  let s := lstripL line
  kwThenSpace "def" s ||
  (kwThenSpace "async" s && kwThenSpace "def" ((s.drop 5).dropWhile isPySpace))

/-- Regex of UPPER_CASE module-constant assignments, applied to the
stripped line: an upper or underscore head, upper-digit-underscore tail,
optional spaces, then a colon or equals sign. -/
def matchesUpperConst (stripped : Line) : Bool :=
  match stripped with
  | c :: rest =>
    (c.isUpper || c == '_') &&
    (let t := rest.dropWhile (fun d => d.isUpper || d.isDigit || d == '_')
     match t.dropWhile isPySpace with
     | d :: _ => d == ':' || d == '='
     | [] => false)
  | [] => false

/-- Signature-continuation loop: while the previous line does not end in
a colon (after rstrip), keep consuming and appending lines. -/
def grabContinuation (prev : Line) : List Line → List Line → (List Line × List Line)
  | rest, acc =>
    if endsColon prev then (rest, acc)
    else
      match rest with
      | [] => ([], acc)
      | l :: rs => grabContinuation l rs (acc ++ [l])

/-- Tail of a multi-line docstring: append lines until one contains the
opening quote again (consumed too); at end of input just stop. -/
def grabDocTail (quote : Line) : List Line → List Line → (List Line × List Line)
  | [], acc => ([], acc)
  | l :: rs, acc =>
    if containsSub quote l then (rs, acc ++ [l])
    else grabDocTail quote rs (acc ++ [l])

/-- RepoFilePreparator._maybe_grab_docstring. -/
def maybeGrabDocstring : List Line → List Line → (List Line × List Line)
  | [], acc => ([], acc)
  | ds :: rest, acc =>
    let stripped := lstripL ds
    if startsWithL "\"\"\"" stripped || startsWithL "\x27\x27\x27" stripped then
      let quote := stripped.take 3
      if 2 ≤ countSub quote stripped then (rest, acc ++ [ds])
      else grabDocTail quote rest (acc ++ [ds])
    else (ds :: rest, acc)

/-- RepoFilePreparator._skip_python_block: skip lines until one is
non-blank with indentation at or below the parent level. -/
def skipPythonBlock (parentIndent : Nat) : List Line → List Line
  | [] => []
  | l :: rest =>
    if isBlankL l then skipPythonBlock parentIndent rest
    else if indentOf l ≤ parentIndent then l :: rest
    else skipPythonBlock parentIndent rest

/-- RepoFilePreparator._extract_python_block.  The while loop over the
line array is rendered over the unconsumed suffix; fuel counts loop
iterations (length + 1 always suffices since every iteration consumes at
least one line before any recursive resumption). Returns the unconsumed
suffix (the first line that exits the block) and the output lines. -/
def extractPythonBlock : Nat → List Line → Int → List Line → (List Line × List Line)
  | 0, rest, _, acc => (rest, acc)
  | _ + 1, [], _, acc => ([], acc)
  | fuel + 1, line :: rest, parentIndent, acc =>
    let stripped := lstripL line
    if stripped.isEmpty then
      extractPythonBlock fuel rest parentIndent (blankCompress acc)
    else if 0 ≤ parentIndent ∧ (indentOf line : Int) ≤ parentIndent then
      (line :: rest, acc)
    else if startsWithL "import " stripped || startsWithL "from " stripped then
      extractPythonBlock fuel rest parentIndent (acc ++ [line])
    else if startsWithL "@" stripped then
      extractPythonBlock fuel rest parentIndent (acc ++ [line])
    else if matchesClassDecl line then
      let s1 := grabContinuation line rest (acc ++ [line])
      let s2 := maybeGrabDocstring s1.1 s1.2
      let s3 := extractPythonBlock fuel s2.1 (indentOf line : Int) s2.2
      extractPythonBlock fuel s3.1 parentIndent s3.2
    else if matchesDefDecl line then
      let s1 := grabContinuation line rest (acc ++ [line])
      let s2 := maybeGrabDocstring s1.1 s1.2
      let acc3 := s2.2 ++ [spacesL (indentOf line + 4) ++ "...".toList]
      extractPythonBlock fuel (skipPythonBlock (indentOf line) s2.1) parentIndent acc3
    else if startsWithL "#" stripped then
      extractPythonBlock fuel rest parentIndent (acc ++ [line])
    else if matchesUpperConst stripped then
      extractPythonBlock fuel rest parentIndent (acc ++ [line])
    else
      extractPythonBlock fuel rest parentIndent acc

/-- Line-level _extract_python_signatures. -/
def extract_python_signatures_lines (lines : List Line) : List Line :=
  (extractPythonBlock (lines.length + 1) lines (-1) []).2

/-- RepoFilePreparator._extract_python_signatures on a whole text. -/
def extract_python_signatures (content : String) : String :=
  joinNL (extract_python_signatures_lines (pySplitlines false content))

/-! ## RepoFilePreparator._extract_js_ts_signatures

Regex matchers of the JS/TS scanner.  Optional and starred groups are
translated as disjunctions and bounded consumption loops (the bound is
the line length; every consumption step removes at least one character),
covering regex backtracking. -/

/-- A require-style declaration: the keyword, a word, then the literal
assignment of a require call. -/
def requireDecl (kw : String) (s : Line) : Bool :=
  startsWithL kw s &&
  (let t := s.drop kw.length
   let w := t.takeWhile isWordChar
   !w.isEmpty && startsWithL " = require(" (t.drop w.length))

/-- Regex of import and require lines. -/
def matchesJsImport (line : Line) : Bool :=
  let s := lstripL line
  startsWithL "import " s || startsWithL "export \x7b" s || startsWithL "export * " s ||
  requireDecl "const " s || requireDecl "let " s || requireDecl "var " s

/-- An export keyword followed by whitespace. -/
def matchesExportKw (line : Line) : Bool := kwThenSpace "export" (lstripL line)

/-- The declaration keywords that may follow export or default. -/
def declAfterExport (t : Line) : Bool :=
  startsWithL "class " t || startsWithL "function " t || startsWithL "async " t ||
  startsWithL "interface " t || startsWithL "type " t || startsWithL "enum " t

/-- Regex of exported declarations (export, optional default, then a
declaration keyword). -/
def matchesExportDecl (line : Line) : Bool :=
  let s := lstripL line
  kwThenSpace "export" s &&
  (let t := (s.drop 6).dropWhile isPySpace
   declAfterExport t ||
   (kwThenSpace "default" t && declAfterExport ((t.drop 7).dropWhile isPySpace)))

/-- Optional abstract, then the class keyword. -/
def absClassTail (s : Line) : Bool :=
  kwThenSpace "class" s ||
  (kwThenSpace "abstract" s && kwThenSpace "class" ((s.drop 8).dropWhile isPySpace))

/-- Optional default, then optional abstract, then class. -/
def defAbsClassTail (s : Line) : Bool :=
  absClassTail s || (kwThenSpace "default" s && absClassTail ((s.drop 7).dropWhile isPySpace))

/-- Regex of JS class declarations. -/
def matchesJsClass (line : Line) : Bool :=
  let s := lstripL line
  defAbsClassTail s || (kwThenSpace "export" s && defAbsClassTail ((s.drop 6).dropWhile isPySpace))

/-- The interface or type keyword followed by a single literal space. -/
def ifaceTyHead (t : Line) : Bool := startsWithL "interface " t || startsWithL "type " t

/-- Optional default, then interface or type. -/
def defIfaceTyTail (s : Line) : Bool :=
  ifaceTyHead s || (kwThenSpace "default" s && ifaceTyHead ((s.drop 7).dropWhile isPySpace))

/-- Regex of interface and type-alias declarations. -/
def matchesJsIfaceTy (line : Line) : Bool :=
  let s := lstripL line
  defIfaceTyTail s || (kwThenSpace "export" s && defIfaceTyTail ((s.drop 6).dropWhile isPySpace))

/-- A function or enum keyword, whitespace, then a word. -/
def fnEnumHead (s : Line) : Bool :=
  (kwThenSpace "function" s && wordAfterSpaces (s.drop 8)) ||
  (kwThenSpace "enum" s && wordAfterSpaces (s.drop 4))

/-- Optional async, then function or enum. -/
def asyncFnEnumTail (s : Line) : Bool :=
  fnEnumHead s || (kwThenSpace "async" s && fnEnumHead ((s.drop 5).dropWhile isPySpace))

/-- Optional default, then optional async, then function or enum. -/
def defFnEnumTail (s : Line) : Bool :=
  asyncFnEnumTail s || (kwThenSpace "default" s && asyncFnEnumTail ((s.drop 7).dropWhile isPySpace))

/-- Regex of function and enum declarations. -/
def matchesJsFnEnum (line : Line) : Bool :=
  let s := lstripL line
  defFnEnumTail s || (kwThenSpace "export" s && defFnEnumTail ((s.drop 6).dropWhile isPySpace))

/-- The const, let or var keyword, whitespace, then a word. -/
def clvHead (s : Line) : Bool :=
  (kwThenSpace "const" s && wordAfterSpaces (s.drop 5)) ||
  (kwThenSpace "let" s && wordAfterSpaces (s.drop 3)) ||
  (kwThenSpace "var" s && wordAfterSpaces (s.drop 3))

/-- Regex of const, let and var declarations. -/
def matchesJsConstLetVar (line : Line) : Bool :=
  let s := lstripL line
  clvHead s || (kwThenSpace "export" s && clvHead ((s.drop 6).dropWhile isPySpace))

/-- Consume one access-modifier keyword with its trailing whitespace. -/
def tryConsumeMod (s : Line) : Option Line :=
  if kwThenSpace "public" s then some ((s.drop 6).dropWhile isPySpace)
  else if kwThenSpace "private" s then some ((s.drop 7).dropWhile isPySpace)
  else if kwThenSpace "protected" s then some ((s.drop 9).dropWhile isPySpace)
  else if kwThenSpace "static" s then some ((s.drop 6).dropWhile isPySpace)
  else if kwThenSpace "abstract" s then some ((s.drop 8).dropWhile isPySpace)
  else if kwThenSpace "override" s then some ((s.drop 8).dropWhile isPySpace)
  else if kwThenSpace "readonly" s then some ((s.drop 8).dropWhile isPySpace)
  else none

/-- Method-name tail of the method regex: a name, optional spaces,
optional angle-bracket generics, optional spaces, an opening paren.  The
constructor alternative is subsumed by the word alternative. -/
def jsNameGenParen (s : Line) : Bool :=
  let w := s.takeWhile isWordChar
  !w.isEmpty &&
  (let t := (s.drop w.length).dropWhile isPySpace
   match t with
   | '(' :: _ => true
   | '<' :: t2 =>
     (match t2.dropWhile (fun c => !(c == '>')) with
      | '>' :: t4 =>
        (match t4.dropWhile isPySpace with
         | '(' :: _ => true
         | _ => false)
      | _ => false)
   | _ => false)

/-- Optional get or set keyword, then the name tail. -/
def jsGetSetTail (s : Line) : Bool :=
  jsNameGenParen s ||
  (kwThenSpace "get" s && jsNameGenParen ((s.drop 3).dropWhile isPySpace)) ||
  (kwThenSpace "set" s && jsNameGenParen ((s.drop 3).dropWhile isPySpace))

/-- Optional async keyword, then get-set tail. -/
def jsAsyncTail (s : Line) : Bool :=
  jsGetSetTail s || (kwThenSpace "async" s && jsGetSetTail ((s.drop 5).dropWhile isPySpace))

/-- The starred modifier group before a method head, with a consumption
bound. -/
def jsModsAux (s : Line) : Nat → Line → Bool
  | 0, t => jsAsyncTail t
  | f + 1, t =>
    jsAsyncTail t ||
    (match tryConsumeMod t with
     | some t2 => jsModsAux s f t2
     | none => false)

/-- Regex of method signatures inside a class body. -/
def matchesJsMethod (line : Line) : Bool :=
  let s := lstripL line
  jsModsAux s s.length s

/-- Field-declaration tail: a word, optional spaces, an optional question
or bang mark, optional spaces, then colon, equals or semicolon. -/
def jsFieldTail (s : Line) : Bool :=
  let w := s.takeWhile isWordChar
  !w.isEmpty &&
  (let t := (s.drop w.length).dropWhile isPySpace
   let t2 := match t with
     | '?' :: r => r.dropWhile isPySpace
     | '!' :: r => r.dropWhile isPySpace
     | _ => t
   match t2 with
   | c :: _ => c == ':' || c == '=' || c == ';'
   | [] => false)

/-- The starred modifier group before a field, with a consumption bound. -/
def jsFieldAux (s : Line) : Nat → Line → Bool
  | 0, t => jsFieldTail t
  | f + 1, t =>
    jsFieldTail t ||
    (match tryConsumeMod t with
     | some t2 => jsFieldAux s f t2
     | none => false)

/-- Regex of field declarations inside a class body (matched against the
stripped line, as in the source). -/
def matchesJsField (stripped : Line) : Bool := jsFieldAux stripped stripped.length stripped

/-- Multi-line parameter continuation of a method: consume while the
previous line has neither a brace nor a semicolon. Returns (previous
line, rest, output). -/
def jsParamCont (prev : Line) : List Line → List Line → (Line × List Line × List Line)
  | rest, acc =>
    if containsSub ['\x7b'] prev || containsSub [';'] prev then (prev, rest, acc)
    else
      match rest with
      | [] => (prev, [], acc)
      | l :: rs => jsParamCont l rs (acc ++ [l])

/-- Import-line continuation: keep consuming until the previous line ends
in a semicolon, or ends in a closing brace of a from-import, or the next
line is blank (left unconsumed), or input ends. -/
def jsImportCont (prev : Line) : List Line → List Line → (List Line × List Line)
  | rest, acc =>
    let p := rstripL prev
    if endsWithCh ';' p || (endsWithCh '\x7d' p && containsSub "from".toList p) then (rest, acc)
    else
      match rest with
      | [] => ([], acc)
      | l :: rs =>
        if isBlankL l then (l :: rs, acc)
        else jsImportCont l rs (acc ++ [l])

/-- Keep a brace-delimited body verbatim (interface and type bodies):
append lines while the depth stays positive. -/
def keepBraceBody (depth : Int) : List Line → List Line → (List Line × List Line)
  | [], acc => ([], acc)
  | l :: rs, acc =>
    if depth ≤ 0 then (l :: rs, acc)
    else keepBraceBody (depth + (countCh '\x7b' l : Int) - (countCh '\x7d' l : Int)) rs (acc ++ [l])

/-- RepoFilePreparator._extract_js_ts_level over the unconsumed suffix.
The in-class flag selects the class-body branch set.  The brace-depth
variable of the source is initialised but never updated outside the
helper skips, so it is not carried here.  Fuel counts loop iterations. -/
def extractJsTsLevel : Nat → List Line → Bool → List Line → (List Line × List Line)
  | 0, rest, _, acc => (rest, acc)
  | _ + 1, [], _, acc => ([], acc)
  | fuel + 1, line :: rest, inClass, acc =>
    let stripped := lstripL line
    if stripped.isEmpty then
      extractJsTsLevel fuel rest inClass (blankCompress acc)
    else if inClass && startsWithL "\x7d" stripped then
      (rest, acc ++ [line])
    else if startsWithL "/**" stripped || startsWithL "/*" stripped then
      let g := grabBlockComment (line :: rest) acc
      extractJsTsLevel fuel g.1 inClass g.2
    else if startsWithL "//" stripped then
      extractJsTsLevel fuel rest inClass (acc ++ [line])
    else if startsWithL "@" stripped then
      extractJsTsLevel fuel rest inClass (acc ++ [line])
    else if inClass then
      if matchesJsMethod line then
        let m := jsParamCont line rest (acc ++ [line])
        if containsSub ['\x7b'] m.1 then
          let acc3 := m.2.2 ++ [spacesL (indentOf line + 2) ++ "// ...".toList]
          let rest3 := skipBraceGo ((countCh '\x7b' m.1 : Int) - (countCh '\x7d' m.1 : Int)) m.2.1
          extractJsTsLevel fuel rest3 inClass acc3
        else
          extractJsTsLevel fuel m.2.1 inClass m.2.2
      else if matchesJsField stripped then
        extractJsTsLevel fuel rest inClass (acc ++ [line])
      else
        extractJsTsLevel fuel rest inClass acc
    else if matchesJsImport line then
      let g := jsImportCont line rest (acc ++ [line])
      extractJsTsLevel fuel g.1 inClass g.2
    else if matchesExportKw line && !matchesExportDecl line then
      extractJsTsLevel fuel rest inClass (acc ++ [line])
    else if matchesJsClass line then
      let g := contUntilBraceInPrev line rest (acc ++ [line])
      let c := extractJsTsLevel fuel g.2.1 true g.2.2
      extractJsTsLevel fuel c.1 inClass c.2
    else if matchesJsIfaceTy line then
      if containsSub ['\x7b'] line then
        let g := keepBraceBody ((countCh '\x7b' line : Int) - (countCh '\x7d' line : Int)) rest
          (acc ++ [line])
        extractJsTsLevel fuel g.1 inClass g.2
      else
        extractJsTsLevel fuel rest inClass (acc ++ [line])
    else if matchesJsFnEnum line then
      let g := contUntilBraceInPrev line rest (acc ++ [line])
      if containsSub ['\x7b'] g.1 then
        let acc3 := g.2.2 ++ [spacesL (indentOf line + 2) ++ "// ...".toList]
        let rest3 := skipBraceGo ((countCh '\x7b' g.1 : Int) - (countCh '\x7d' g.1 : Int)) g.2.1
        extractJsTsLevel fuel rest3 inClass acc3
      else
        extractJsTsLevel fuel g.2.1 inClass g.2.2
    else if matchesJsConstLetVar line then
      let bc := (countCh '\x7b' line : Int) - (countCh '\x7d' line : Int)
      if 0 < bc then
        let acc3 := acc ++ [line] ++ [spacesL (indentOf line + 2) ++ "// ...".toList]
        extractJsTsLevel fuel (skipBraceGo bc rest) inClass acc3
      else
        extractJsTsLevel fuel rest inClass (acc ++ [line])
    else
      extractJsTsLevel fuel rest inClass acc

/-- RepoFilePreparator._extract_js_ts_signatures on a whole text. -/
def extract_js_ts_signatures (content : String) : String :=
  let lines := pySplitlines false content
  joinNL ((extractJsTsLevel (lines.length + 1) lines false []).2)

/-! ## RepoFilePreparator._extract_curly_brace_signatures -/

/-- Language-specific import keywords (the dict lookup with its default). -/
def curlyImports (language : String) : List String :=
  if language == "java" then ["import ", "package "]
  else if language == "go" then ["import ", "package "]
  else if language == "csharp" then ["using ", "namespace "]
  else if language == "rust" then ["use ", "mod ", "extern crate "]
  else ["import ", "package ", "use "]

/-- A word-boundary keyword match (regex kw followed by backslash-b). -/
def kwWordBoundary (kw : String) (t : Line) : Bool :=
  kw.toList.isPrefixOf t &&
  (match t.drop kw.length with
   | c :: _ => !isWordChar c
   | [] => true)

/-- The Go-style named type declaration: type, a word, whitespace, then
struct, interface or enum at a word boundary. -/
def curlyTypeDecl (s : Line) : Bool :=
  startsWithL "type " s &&
  (let t := s.drop 5
   let w := t.takeWhile isWordChar
   !w.isEmpty &&
   (let t2 := t.drop w.length
    (match t2 with
     | c :: _ => isPySpace c
     | [] => false) &&
    (let t3 := t2.dropWhile isPySpace
     kwWordBoundary "struct" t3 || kwWordBoundary "interface" t3 || kwWordBoundary "enum" t3)))

/-- The type-declaration keywords of decl_re (each with a literal
trailing space, as in the source pattern). -/
def curlyDeclHead (s : Line) : Bool :=
  startsWithL "class " s || startsWithL "interface " s || startsWithL "struct " s ||
  startsWithL "enum " s || startsWithL "trait " s || startsWithL "impl " s ||
  curlyTypeDecl s

/-- Consume one of the decl_re modifier keywords with trailing
whitespace. -/
def tryConsumeCurlyMod (s : Line) : Option Line :=
  if kwThenSpace "public" s then some ((s.drop 6).dropWhile isPySpace)
  else if kwThenSpace "private" s then some ((s.drop 7).dropWhile isPySpace)
  else if kwThenSpace "protected" s then some ((s.drop 9).dropWhile isPySpace)
  else if kwThenSpace "internal" s then some ((s.drop 8).dropWhile isPySpace)
  else if kwThenSpace "static" s then some ((s.drop 6).dropWhile isPySpace)
  else if kwThenSpace "final" s then some ((s.drop 5).dropWhile isPySpace)
  else if kwThenSpace "abstract" s then some ((s.drop 8).dropWhile isPySpace)
  else if kwThenSpace "override" s then some ((s.drop 8).dropWhile isPySpace)
  else if kwThenSpace "virtual" s then some ((s.drop 7).dropWhile isPySpace)
  else if kwThenSpace "async" s then some ((s.drop 5).dropWhile isPySpace)
  else if kwThenSpace "unsafe" s then some ((s.drop 6).dropWhile isPySpace)
  else none

/-- The starred modifier group of decl_re, with a consumption bound. -/
def curlyModsAux : Nat → Line → Bool
  | 0, t => curlyDeclHead t
  | f + 1, t =>
    curlyDeclHead t ||
    (match tryConsumeCurlyMod t with
     | some t2 => curlyModsAux f t2
     | none => false)

/-- Consume the optional Rust pub prefix with optional crate scope and
trailing whitespace. -/
def consumePub (s : Line) : Option Line :=
  if "pub".toList.isPrefixOf s then
    let t := s.drop 3
    let t2 := if "(crate)".toList.isPrefixOf t then t.drop 7 else t
    match t2 with
    | c :: _ => if isPySpace c then some (t2.dropWhile isPySpace) else none
    | [] => none
  else none

/-- decl_re of the curly-brace scanner. -/
def matchesCurlyDecl (line : Line) : Bool :=
  let s := lstripL line
  curlyModsAux s.length s ||
  (match consumePub s with
   | some t => curlyModsAux t.length t
   | none => false)

/-- The fn-or-func head of func_re. -/
def funcHead (s : Line) : Bool :=
  (kwThenSpace "fn" s && wordAfterSpaces (s.drop 2)) || kwThenSpace "func" s

/-- Optional unsafe keyword, then the func head. -/
def funcUnsafeTail (s : Line) : Bool :=
  funcHead s || (kwThenSpace "unsafe" s && funcHead ((s.drop 6).dropWhile isPySpace))

/-- Optional async keyword, then the unsafe tail. -/
def funcAsyncTail (s : Line) : Bool :=
  funcUnsafeTail s || (kwThenSpace "async" s && funcUnsafeTail ((s.drop 5).dropWhile isPySpace))

/-- func_re of the curly-brace scanner. -/
def matchesCurlyFunc (line : Line) : Bool :=
  let s := lstripL line
  funcAsyncTail s ||
  (match consumePub s with
   | some t => funcAsyncTail t
   | none => false)

/-- Go grouped-import continuation: append lines until one contains the
closing paren (consumed too). -/
def goImportBlockCont : List Line → List Line → (List Line × List Line)
  | [], acc => ([], acc)
  | l :: rs, acc =>
    if containsSub [')'] l then (rs, acc ++ [l])
    else goImportBlockCont rs (acc ++ [l])

/-- RepoFilePreparator._extract_member_signatures over the unconsumed
suffix, with the running brace depth.  Fuel counts loop iterations. -/
def memberSigLoop : Nat → List Line → Int → String → List Line → (List Line × List Line)
  | 0, rest, _, _, acc => (rest, acc)
  | fuel + 1, rest, depth, language, acc =>
    if depth ≤ 0 then (rest, acc)
    else
      match rest with
      | [] => ([], acc)
      | line :: rs =>
        let stripped := lstripL line
        let openB : Int := countCh '\x7b' line
        let closeB : Int := countCh '\x7d' line
        if depth == 1 && startsWithL "\x7d" stripped then
          memberSigLoop fuel rs (depth - closeB + openB) language (acc ++ [line])
        else if depth == 1 then
          if startsWithL "@" stripped || startsWithL "#[" stripped then
            memberSigLoop fuel rs depth language (acc ++ [line])
          else if startsWithL "//" stripped || startsWithL "#" stripped then
            memberSigLoop fuel rs depth language (acc ++ [line])
          else if startsWithL "/**" stripped || startsWithL "/*" stripped then
            let g := grabBlockComment (line :: rs) acc
            memberSigLoop fuel g.1 depth language g.2
          else if 0 < openB then
            let acc3 := acc ++ [line] ++ [spacesL (indentOf line + 2) ++ "// ...".toList]
            memberSigLoop fuel (skipBraceGo (openB - closeB) rs) depth language acc3
          else
            memberSigLoop fuel rs depth language (acc ++ [line])
        else
          memberSigLoop fuel rs (depth + openB - closeB) language acc

/-- Declaration continuation of the curly scanner: consume lines without
an opening brace, appending them; the first line with a brace is left
unconsumed (the source checks the current line here, not the previous
one). -/
def contUntilBraceInCur : List Line → List Line → (List Line × List Line)
  | [], acc => ([], acc)
  | l :: rs, acc =>
    if containsSub ['\x7b'] l then (l :: rs, acc)
    else contUntilBraceInCur rs (acc ++ [l])

/-- RepoFilePreparator._extract_curly_brace_signatures main loop over the
unconsumed suffix.  Fuel counts loop iterations. -/
def extractCurlyLoop : Nat → List Line → String → List Line → (List Line × List Line)
  | 0, rest, _, acc => (rest, acc)
  | _ + 1, [], _, acc => ([], acc)
  | fuel + 1, line :: rest, language, acc =>
    let stripped := lstripL line
    if stripped.isEmpty then
      extractCurlyLoop fuel rest language (blankCompress acc)
    else if startsWithL "/**" stripped || startsWithL "/*" stripped then
      let g := grabBlockComment (line :: rest) acc
      extractCurlyLoop fuel g.1 language g.2
    else if startsWithL "//" stripped || startsWithL "#" stripped then
      extractCurlyLoop fuel rest language (acc ++ [line])
    else if startsWithL "@" stripped || startsWithL "#[" stripped then
      extractCurlyLoop fuel rest language (acc ++ [line])
    else if (curlyImports language).any (fun kw => startsWithL kw stripped) then
      if language == "go" && containsSub ['('] line && !containsSub [')'] line then
        let g := goImportBlockCont rest (acc ++ [line])
        extractCurlyLoop fuel g.1 language g.2
      else
        extractCurlyLoop fuel rest language (acc ++ [line])
    else if matchesCurlyFunc line then
      let g := contUntilBraceInPrev line rest (acc ++ [line])
      let acc3 := g.2.2 ++ [spacesL (indentOf line + 2) ++ "// ...".toList]
      extractCurlyLoop fuel (skipBraceGo 1 g.2.1) language acc3
    else if matchesCurlyDecl line then
      if containsSub ['\x7b'] line then
        let m := memberSigLoop (rest.length + 1) rest 1 language (acc ++ [line])
        extractCurlyLoop fuel m.1 language m.2
      else
        let g := contUntilBraceInCur rest (acc ++ [line])
        match g.1 with
        | [] => extractCurlyLoop fuel [] language g.2
        | l :: rs =>
          let m := memberSigLoop (rs.length + 1) rs 1 language (g.2 ++ [l])
          extractCurlyLoop fuel m.1 language m.2
    else
      extractCurlyLoop fuel rest language acc

/-- Line-level _extract_curly_brace_signatures. -/
def extract_curly_lines (lines : List Line) (language : String) : List Line :=
  (extractCurlyLoop (lines.length + 1) lines language []).2

/-- RepoFilePreparator._extract_curly_brace_signatures on a whole text. -/
def extract_curly_brace_signatures (content : String) (language : String) : String :=
  joinNL (extract_curly_lines (pySplitlines false content) language)

/-! ## RepoFilePreparator._extract_generic_signatures -/

/-- structural_re, decorator_re and comment_re of the fallback scanner. -/
def matchesGeneric (line : Line) : Bool :=
  let s := lstripL line
  (["import ", "from ", "require(", "export ", "package ", "use ", "pub ",
    "class ", "struct ", "type ", "interface ", "enum ",
    "def ", "fn ", "func ", "function ",
    "const ", "let ", "var ",
    "public ", "private ", "protected ", "abstract ", "static "] : List String).any
      (fun kw => startsWithL kw s) ||
  startsWithL "@" s || startsWithL "//" s || startsWithL "#" s || startsWithL "/*" s

/-- The fallback scanner loop. -/
def extractGenericLoop : List Line → List Line → List Line
  | [], acc => acc
  | line :: rest, acc =>
    let stripped := lstripL line
    if stripped.isEmpty then extractGenericLoop rest (blankCompress acc)
    else if matchesGeneric line then extractGenericLoop rest (acc ++ [line])
    else extractGenericLoop rest acc

/-- RepoFilePreparator._extract_generic_signatures on a whole text. -/
def extract_generic_signatures (content : String) : String :=
  joinNL (extractGenericLoop (pySplitlines false content) [])

/-! ## RepoFilePreparator._extract_signatures (language dispatch) -/

def extract_signatures (content : String) (language : String) : String :=
  if language == "python" then extract_python_signatures content
  else if language == "javascript" || language == "typescript" then
    extract_js_ts_signatures content
  else if language == "java" || language == "go" || language == "csharp" ||
          language == "rust" then
    extract_curly_brace_signatures content language
  else extract_generic_signatures content

/-! ## Sorting

Python sorted is a stable comparison sort.  Each use in the source sorts
by a key under which the result is unique: path strings (equal elements
are indistinguishable), size with the enumeration index as the stability
tie-break, and the distinct enumeration index itself.  Insertion sort
with the corresponding total Boolean order therefore computes exactly
the list Python produces. -/

def insertLe {α : Type} (le : α → α → Bool) (a : α) : List α → List α
  | [] => [a]
  | b :: t => if le a b then a :: b :: t else b :: insertLe le a t

def isortBy {α : Type} (le : α → α → Bool) : List α → List α
  | [] => []
  | a :: t => insertLe le a (isortBy le t)

/-- Lexicographic code-point order on char lists (Python string
comparison). -/
def lexLeCh : Line → Line → Bool
  | [], _ => true
  | _ :: _, [] => false
  | c :: cs, d :: ds => if c < d then true else if c = d then lexLeCh cs ds else false

/-- Python string less-or-equal. -/
def strLeB (a b : String) : Bool := lexLeCh a.toList b.toList

/-! ## Data model -/

/-- A tier-1 record: path, full content, language. -/
structure Tier1Rec where
  path : String
  content : String
  language : String
deriving Repr, DecidableEq

/-- A tier-2 record: path, extracted signature text, language. -/
structure Tier2Rec where
  path : String
  signatures : String
  language : String
deriving Repr, DecidableEq

/-- The RepoManifest dataclass. -/
structure RepoManifest where
  repo_name : String
  repo_path : String
  file_tree : String
  tier1_files : List Tier1Rec
  tier2_files : List Tier2Rec
  tier3_files : List String
  total_files : Nat
  estimated_tokens : Nat
deriving Repr, DecidableEq

/-- One filesystem entry reached by the recursive walk, in traversal
order.  parts are the path components relative to the repository root
(the name is the last component); statOk models a stat call that may
raise; sniff models the raw bytes readable from the file (none is a
read error); text models the decoded content (none is a read error). -/
structure SrcFile where
  parts : List String
  isFile : Bool
  size : Nat
  statOk : Bool
  sniff : Option (List Nat)
  text : Option String
deriving Repr, DecidableEq

/-- file_path.name: the last path component. -/
def fileName (f : SrcFile) : String := (f.parts.getLast?).getD ""

/-- str(file_path.relative_to(repo_path)): components joined by the
separator. -/
def relStr (f : SrcFile) : String := String.intercalate "/" f.parts

/-! ## RepoFilePreparator._build_file_tree -/

/-- Split a relative path string on the separator. -/
def splitSlashAux (cur : Line) : Line → List String
  | [] => [String.mk cur.reverse]
  | '/' :: rest => String.mk cur.reverse :: splitSlashAux [] rest
  | c :: rest => splitSlashAux (c :: cur) rest

/-- Python rel.split(os.sep). -/
def splitSlash (s : String) : List String := splitSlashAux [] s.toList

/-- Python os.sep.join(parts[:depth+1]). -/
def joinSlash (parts : List String) : String := String.intercalate "/" parts

/-- Emit the directory line of one depth if its prefix is unseen; the
state is (seen prefixes, output lines). -/
def treeDirStep (parts : List String) (st : List String × List String) (depth : Nat) :
    List String × List String :=
  let dirPath := joinSlash (parts.take (depth + 1))
  if st.1.contains dirPath then st
  else
    (st.1 ++ [dirPath],
     st.2 ++ [String.mk (spacesL (2 * (depth + 1))) ++ (parts.getD depth "") ++ "/"])

/-- Emit the directory prefixes and then the file line of one relative
path. -/
def treeFileStep (st : List String × List String) (rel : String) :
    List String × List String :=
  let parts := splitSlash rel
  let st2 := (List.range (parts.length - 1)).foldl (treeDirStep parts) st
  (st2.1, st2.2 ++ [String.mk (spacesL (2 * parts.length)) ++ ((parts.getLast?).getD "")])

/-- RepoFilePreparator._build_file_tree on the relative path strings of
all discovered files. -/
def build_file_tree (repoName : String) (relPaths : List String) : String :=
  if relPaths.isEmpty then "(empty)\n"
  else
    let sortedRels := isortBy strLeB relPaths
    let st := sortedRels.foldl treeFileStep ([], [repoName ++ "/"])
    String.intercalate "\n" st.2 ++ "\n"

/-! ## RepoFilePreparator.prepare

The walk filter, tier classification, record construction, token
estimation and the two budget-fitting branches, phase by phase.  The
result of each phase is a named definition so that the theorems can
speak about intermediate states; prepare composes them exactly in the
order of the source. -/

/-- Step 1 of prepare: the discovered files (is_file, excluded-directory
filter over all relative components, stat with failure treated as skip,
size ceiling, binary filter). -/
def discovered (skipDirs : List String) (maxFileSize : Nat) (files : List SrcFile) :
    List SrcFile :=
  files.filter fun f =>
    f.isFile &&
    !(f.parts.any fun part => skipDirs.contains part) &&
    (f.statOk && decide (f.size ≤ maxFileSize)) &&
    !(is_binary (fileName f) f.sniff)

/-- Step 2: the tier-1 classified files in traversal order. -/
def tier1PathsOf (all : List SrcFile) : List SrcFile :=
  all.filter fun f => classify_file f.parts == 1

/-- Step 2: the tier-2 classified files in traversal order. -/
def tier2PathsOf (all : List SrcFile) : List SrcFile :=
  all.filter fun f => classify_file f.parts == 2

/-- Step 2: the remaining files (the else branch of classification). -/
def tier3PathsOf (all : List SrcFile) : List SrcFile :=
  all.filter fun f => !(classify_file f.parts == 1) && !(classify_file f.parts == 2)

/-- Step 3: read tier-1 files; a failed read produces no record. -/
def tier1RecsOf (all : List SrcFile) : List Tier1Rec :=
  (tier1PathsOf all).filterMap fun f =>
    f.text.map fun c =>
      { path := relStr f, content := c, language := detect_language (fileName f) }

/-- Step 4: read tier-2 files and extract signatures; a failed read
produces no record. -/
def tier2RecsOf (all : List SrcFile) : List Tier2Rec :=
  (tier2PathsOf all).filterMap fun f =>
    f.text.map fun c =>
      let language := detect_language (fileName f)
      { path := relStr f, signatures := extract_signatures c language, language := language }

/-- Step 5: the tier-3 path strings. -/
def tier3StrsOf (all : List SrcFile) : List String := (tier3PathsOf all).map relStr

/-! ## Step 7: budget management -/

/-- A sized tier-2 entry: (estimated tokens, original index, record). -/
abbrev T2Entry := Nat × Nat × Tier2Rec

/-- Ascending size with the original index as tie-break: the order of
the stable Python sort keyed on size over the index-ascending list. -/
def entryLe (a b : T2Entry) : Bool :=
  decide (a.1 < b.1) || (a.1 == b.1 && decide (a.2.1 ≤ b.2.1))

/-- Ascending original index (the restore-order sort; indices are
distinct). -/
def idxLe (a b : T2Entry) : Bool := decide (a.2.1 ≤ b.2.1)

/-- The demotion walk over the ranked entries from the most expensive
down: keep an entry while the running total stays within the limit,
otherwise demote it.  Returns (running total, kept entries in walk
order, demoted entries in walk order). -/
def demoteWalk (maxTokens : Nat) : Nat → List T2Entry → Nat × List T2Entry × List T2Entry
  | running, [] => (running, [], [])
  | running, e :: es =>
    if running + e.1 ≤ maxTokens then
      let r := demoteWalk maxTokens (running + e.1) es
      (r.1, e :: r.2.1, r.2.2)
    else
      let r := demoteWalk maxTokens running es
      (r.1, r.2.1, e :: r.2.2)

/-- The whole demotion phase: rank ascending by size, walk the reverse,
restore the kept records to original order, emit the demoted paths in
demotion order.  Returns (new total, new tier-2 records, demoted path
strings appended to tier 3). -/
def demotePhase (maxTokens running0 : Nat) (tier2_files : List Tier2Rec) :
    Nat × List Tier2Rec × List String :=
  let entries := tier2_files.enum.map fun p => (estimate_tokens p.2.signatures, p.1, p.2)
  let ranked := isortBy entryLe entries
  let w := demoteWalk maxTokens running0 ranked.reverse
  let kept := isortBy idxLe w.2.1
  (w.1, kept.map fun e => e.2.2, w.2.2.map fun e => e.2.2.path)

/-- The tier-1 truncation of the final budget step: contents of more
than 200 lines (keepends split) are cut to the first 200 lines with the
fixed marker appended; shorter contents are left unchanged. -/
def truncateContent (content : String) : String :=
  let lines := pySplitlines true content
  if 200 < lines.length then
    String.mk (lines.take 200).flatten ++ "\n# ... (truncated)\n"
  else content

/-! ## prepare: phase composition -/

/-- The arguments of one prepare call: the preparator configuration and
the repository snapshot (walked entries in sorted traversal order). -/
structure PrepArgs where
  skipDirs : List String
  maxTokens : Nat
  maxFileSize : Nat
  repoName : String
  repoPath : String
  files : List SrcFile
deriving Repr, DecidableEq

def allFilesOf (a : PrepArgs) : List SrcFile := discovered a.skipDirs a.maxFileSize a.files

def tier1FilesOf (a : PrepArgs) : List Tier1Rec := tier1RecsOf (allFilesOf a)

def tier2FilesOf (a : PrepArgs) : List Tier2Rec := tier2RecsOf (allFilesOf a)

def tier3FileStrsOf (a : PrepArgs) : List String := tier3StrsOf (allFilesOf a)

def fileTreeOf (a : PrepArgs) : String := build_file_tree a.repoName ((allFilesOf a).map relStr)

def tier1TokOf (a : PrepArgs) : Nat :=
  ((tier1FilesOf a).map fun f => estimate_tokens f.content).sum

def tier2TokOf (a : PrepArgs) : Nat :=
  ((tier2FilesOf a).map fun f => estimate_tokens f.signatures).sum

def treeTokOf (a : PrepArgs) : Nat := estimate_tokens (fileTreeOf a)

/-- Step 6: the initial estimate (fixed prompt overhead 2000 plus tree
plus tier-1 plus tier-2). -/
def initTotalOf (a : PrepArgs) : Nat := 2000 + treeTokOf a + tier1TokOf a + tier2TokOf a

/-- The running total the demotion walk starts from. -/
def demoteBaseOf (a : PrepArgs) : Nat := 2000 + treeTokOf a + tier1TokOf a

def demoteResOf (a : PrepArgs) : Nat × List Tier2Rec × List String :=
  demotePhase a.maxTokens (demoteBaseOf a) (tier2FilesOf a)

/-- The total after the (conditional) demotion step. -/
def afterDemoteTotalOf (a : PrepArgs) : Nat :=
  if a.maxTokens < initTotalOf a then (demoteResOf a).1 else initTotalOf a

/-- The tier-2 records after the (conditional) demotion step. -/
def afterDemoteTier2Of (a : PrepArgs) : List Tier2Rec :=
  if a.maxTokens < initTotalOf a then (demoteResOf a).2.1 else tier2FilesOf a

/-- The paths demoted to tier 3 (empty when no demotion ran). -/
def demotedPathsOf (a : PrepArgs) : List String :=
  if a.maxTokens < initTotalOf a then (demoteResOf a).2.2 else []

/-- The tier-3 string list before the final sort. -/
def tier3PreSortOf (a : PrepArgs) : List String := tier3FileStrsOf a ++ demotedPathsOf a

/-- The tier-1 records after the (conditional) truncation step. -/
def finalTier1Of (a : PrepArgs) : List Tier1Rec :=
  if a.maxTokens < afterDemoteTotalOf a then
    (tier1FilesOf a).map fun f => { f with content := truncateContent f.content }
  else tier1FilesOf a

/-- The final estimated total (recomputed after truncation, otherwise
the demotion-phase value). -/
def finalTotalOf (a : PrepArgs) : Nat :=
  if a.maxTokens < afterDemoteTotalOf a then
    2000 + treeTokOf a +
    ((finalTier1Of a).map fun f => estimate_tokens f.content).sum +
    ((afterDemoteTier2Of a).map fun f => estimate_tokens f.signatures).sum
  else afterDemoteTotalOf a

/-- RepoFilePreparator.prepare. -/
def prepare (a : PrepArgs) : RepoManifest :=
  { repo_name := a.repoName
    repo_path := a.repoPath
    file_tree := fileTreeOf a
    tier1_files := finalTier1Of a
    tier2_files := afterDemoteTier2Of a
    tier3_files := isortBy strLeB (tier3PreSortOf a)
    total_files := (allFilesOf a).length
    estimated_tokens := finalTotalOf a }

/-! ## Sorting lemmas -/

theorem insertLe_perm {α : Type} (le : α → α → Bool) (a : α) (l : List α) :
    List.Perm (insertLe le a l) (a :: l) := by
  induction l with
  | nil => simp [insertLe]
  | cons b t ih =>
    simp only [insertLe]
    split
    · exact List.Perm.refl _
    · exact (ih.cons b).trans (List.Perm.swap a b t)

theorem isortBy_perm {α : Type} (le : α → α → Bool) (l : List α) :
    List.Perm (isortBy le l) l := by
  induction l with
  | nil => simp [isortBy]
  | cons a t ih => exact (insertLe_perm le a _).trans (ih.cons a)

theorem lexLeCh_total (x y : Line) : lexLeCh x y = true ∨ lexLeCh y x = true := by
  induction x generalizing y with
  | nil => left; rfl
  | cons c cs ih =>
    cases y with
    | nil => right; rfl
    | cons d ds =>
      by_cases hlt : c < d
      · left; simp [lexLeCh, hlt]
      · by_cases heq : c = d
        · subst heq
          rcases ih ds with h | h
          · left; simp [lexLeCh, h]
          · right; simp [lexLeCh, h]
        · have hdc : d < c := by
            rcases lt_trichotomy c d with h | h | h
            · exact absurd h hlt
            · exact absurd h heq
            · exact h
          right
          simp [lexLeCh, hdc]

theorem lexLeCh_trans (x y z : Line) (h1 : lexLeCh x y = true) (h2 : lexLeCh y z = true) :
    lexLeCh x z = true := by
  induction x generalizing y z with
  | nil => rfl
  | cons c cs ih =>
    cases y with
    | nil => simp [lexLeCh] at h1
    | cons d ds =>
      cases z with
      | nil => simp [lexLeCh] at h2
      | cons e es =>
        simp only [lexLeCh] at h1 h2 ⊢
        by_cases hcd : c < d
        · by_cases hde : d < e
          · simp [lt_trans hcd hde]
          · by_cases hde2 : d = e
            · subst hde2; simp [hcd]
            · simp [hcd, hde, hde2] at h2
        · by_cases hcd2 : c = d
          · subst hcd2
            by_cases hce : c < e
            · simp [hce]
            · by_cases hce2 : c = e
              · subst hce2
                simp [lt_irrefl] at h1 h2 ⊢
                exact ih ds es h1 h2
              · simp [hce, hce2] at h2
          · simp [hcd, hcd2] at h1

theorem strLeB_total (a b : String) : strLeB a b = true ∨ strLeB b a = true :=
  lexLeCh_total a.toList b.toList

theorem strLeB_trans (a b c : String) (h1 : strLeB a b = true) (h2 : strLeB b c = true) :
    strLeB a c = true :=
  lexLeCh_trans a.toList b.toList c.toList h1 h2

theorem insertLe_pairwise {α : Type} (le : α → α → Bool)
    (htot : ∀ a b : α, le a b = true ∨ le b a = true)
    (htrans : ∀ a b c : α, le a b = true → le b c = true → le a c = true)
    (a : α) (l : List α) (h : l.Pairwise (fun x y => le x y = true)) :
    (insertLe le a l).Pairwise (fun x y => le x y = true) := by
  induction l with
  | nil => simp [insertLe]
  | cons b t ih =>
    rcases List.pairwise_cons.mp h with ⟨hb, ht⟩
    simp only [insertLe]
    split
    case isTrue hab =>
      refine List.pairwise_cons.mpr ⟨?_, h⟩
      intro x hx
      rcases List.mem_cons.mp hx with rfl | hx
      · exact hab
      · exact htrans a b x hab (hb x hx)
    case isFalse hab =>
      have hba : le b a = true := by
        rcases htot a b with hh | hh
        · exact absurd hh hab
        · exact hh
      refine List.pairwise_cons.mpr ⟨?_, ih ht⟩
      intro x hx
      have hx2 := (insertLe_perm le a t).mem_iff.mp hx
      rcases List.mem_cons.mp hx2 with rfl | hx3
      · exact hba
      · exact hb x hx3

theorem isortBy_pairwise {α : Type} (le : α → α → Bool)
    (htot : ∀ a b : α, le a b = true ∨ le b a = true)
    (htrans : ∀ a b c : α, le a b = true → le b c = true → le a c = true)
    (l : List α) : (isortBy le l).Pairwise (fun x y => le x y = true) := by
  induction l with
  | nil => simp [isortBy]
  | cons a t ih => exact insertLe_pairwise le htot htrans a _ ih

/-! ## Claim C5 -/

/-- C5: the claim says a filename matching a known dependency-lock-file
name is classified binary.  The source lowercases the name before
membership in LOCK_FILES, whose entries Cargo.lock, Gemfile.lock and
Pipfile.lock contain capitals, so those names can never match: a plain
text file named Cargo.lock (no null byte in its first 8 KiB) is
classified textual, while the constant itself shows the intent.  The
all-lowercase entries still work. -/
theorem C5_lock_file_never_matched :
    ("Cargo.lock" : String) ∈ LOCK_FILES ∧
    is_binary "Cargo.lock" (some [76, 111, 99, 107]) = false ∧
    is_binary "package-lock.json" (some [76, 111]) = true := by decide

/-! ## Claim C6 -/

/-- The ordered first-match-wins decision list of the tier classifier as
the specification words it, with the directory-name test of the config
rule as a parameter. -/
def specTierRules (configDirMatch : String → Bool) (relParts : List String) :
    List (Bool × Nat) :=
  let name := (relParts.getLast?).getD ""
  let nameLower := toLowerStr name
  let stemLower := toLowerStr (pyStem name)
  let suffixLower := toLowerStr (pySuffix name)
  [(strStarts stemLower "readme" || strStarts stemLower "contributing" ||
      strStarts stemLower "changelog", 1),
   (ENTRY_POINT_NAMES.contains nameLower, 1),
   (CONFIG_FILE_NAMES.contains nameLower, 1),
   (stemLower == "dockerfile" || strStarts nameLower "dockerfile.", 1),
   (strStarts nameLower "docker-compose", 1),
   (TIER1_NAME_KEYWORDS.any (fun kw => containsStr kw stemLower) &&
      SOURCE_EXTENSIONS.contains suffixLower, 1),
   (CONFIG_EXTENSIONS.contains suffixLower &&
      (relParts.length == 1 ||
       (relParts.length == 2 && configDirMatch (relParts.headD ""))), 1),
   (SOURCE_EXTENSIONS.contains suffixLower, 2)]

/-- First-match-wins evaluation; everything else is tier 3. -/
def firstMatchTier : List (Bool × Nat) → Nat
  | [] => 3
  | (c, t) :: rest => if c then t else firstMatchTier rest

/-- The claim as written: the config rule fires only one level deep
inside a directory literally named config. -/
def classifySpecLiteral (relParts : List String) : Nat :=
  firstMatchTier (specTierRules (fun d => d == "config") relParts)

/-- The amended decision list: the directory name is compared
case-insensitively. -/
def classifySpecAmended (relParts : List String) : Nat :=
  firstMatchTier (specTierRules (fun d => toLowerStr d == "config") relParts)

/-- C6 counterexample: a yaml file one level deep inside a directory
named Config (capital C).  The code assigns tier 1; the decision list of
the claim, whose config rule demands a directory literally named config,
assigns tier 3. -/
theorem C6_counterexample :
    classify_file ["Config", "app.yaml"] = 1 ∧
    classifySpecLiteral ["Config", "app.yaml"] = 3 := by decide

/-- C6 (amended): the tier classifier is a total deterministic function
of the relative path and name, equal to the ordered first-match-wins
decision list of the claim with the config-directory name compared
case-insensitively; in particular the domain-keyword rule fires only for
recognized source extensions, the config rule only at the root or one
level deep inside a config directory (case-insensitively), remaining
source extensions give tier 2, and everything else tier 3. -/
theorem C6_corrected (relParts : List String) :
    classify_file relParts = classifySpecAmended relParts := by
  rfl

/-! ## Demotion-walk lemmas -/

theorem demoteWalk_perm (m : Nat) (es : List T2Entry) : ∀ r : Nat,
    List.Perm ((demoteWalk m r es).2.1 ++ (demoteWalk m r es).2.2) es := by
  induction es with
  | nil => intro r; simp [demoteWalk]
  | cons e es ih =>
    intro r
    simp only [demoteWalk]
    split
    · exact ((ih (r + e.1)).cons e)
    · exact List.perm_middle.trans ((ih r).cons e)

theorem demoteWalk_total_eq (m : Nat) (es : List T2Entry) : ∀ r : Nat,
    (demoteWalk m r es).1 = r + (((demoteWalk m r es).2.1).map fun e => e.1).sum := by
  induction es with
  | nil => intro r; simp [demoteWalk]
  | cons e es ih =>
    intro r
    simp only [demoteWalk]
    split
    · simp only [List.map_cons, List.sum_cons]
      rw [ih (r + e.1)]
      omega
    · exact ih r

theorem demoteWalk_over (m : Nat) (es : List T2Entry) : ∀ r : Nat,
    m < (demoteWalk m r es).1 →
    (demoteWalk m r es).2.1 = [] ∧ (demoteWalk m r es).1 = r := by
  induction es with
  | nil => intro r _; exact ⟨rfl, rfl⟩
  | cons e es ih =>
    intro r hover
    by_cases hfit : r + e.1 ≤ m
    · exfalso
      have h1 : m < (demoteWalk m (r + e.1) es).1 := by
        simpa only [demoteWalk, if_pos hfit] using hover
      have h2 := (ih (r + e.1) h1).2
      omega
    · have h1 : m < (demoteWalk m r es).1 := by
        simpa only [demoteWalk, if_neg hfit] using hover
      have h2 := ih r h1
      simp only [demoteWalk, if_neg hfit]
      exact ⟨h2.1, h2.2⟩

/-- Every kept entry carries the estimated size of its record (all
entries are built that way and the walk only reorders them). -/
theorem demotePhase_entry_cost (maxT r0 : Nat) (t2 : List Tier2Rec) :
    ∀ e ∈ (demoteWalk maxT r0
        (isortBy entryLe (t2.enum.map fun p => (estimate_tokens p.2.signatures, p.1, p.2))).reverse).2.1,
      e.1 = estimate_tokens e.2.2.signatures := by
  intro e he
  have h1 : e ∈ (isortBy entryLe
      (t2.enum.map fun p => (estimate_tokens p.2.signatures, p.1, p.2))).reverse := by
    have := (demoteWalk_perm maxT _ r0).mem_iff.mp (List.mem_append.mpr (Or.inl he))
    exact this
  have h2 : e ∈ t2.enum.map fun p => (estimate_tokens p.2.signatures, p.1, p.2) :=
    (isortBy_perm entryLe _).mem_iff.mp (List.mem_reverse.mp h1)
  rcases List.mem_map.mp h2 with ⟨p, _, rfl⟩
  rfl

/-- The demotion phase returns exactly the running total: the start
value plus the sizes of the retained records. -/
theorem demotePhase_total (maxT r0 : Nat) (t2 : List Tier2Rec) :
    (demotePhase maxT r0 t2).1 =
      r0 + (((demotePhase maxT r0 t2).2.1).map fun f => estimate_tokens f.signatures).sum := by
  simp only [demotePhase]
  rw [demoteWalk_total_eq]
  congr 1
  rw [List.map_map]
  have hperm := ((isortBy_perm idxLe
    (demoteWalk maxT r0
      (isortBy entryLe (t2.enum.map fun p =>
        (estimate_tokens p.2.signatures, p.1, p.2))).reverse).2.1).map
    ((fun f : Tier2Rec => estimate_tokens f.signatures) ∘ fun e : T2Entry => e.2.2)).sum_eq
  rw [hperm]
  apply congrArg
  apply List.map_congr_left
  intro e he
  exact demotePhase_entry_cost maxT r0 t2 e he
/-- When the demotion phase still ends over the limit, nothing was kept
and the total is unchanged (the running start already exceeded the
limit, so no record could fit). -/
theorem demotePhase_over (maxT r0 : Nat) (t2 : List Tier2Rec)
    (h : maxT < (demotePhase maxT r0 t2).1) :
    (demotePhase maxT r0 t2).2.1 = [] ∧ (demotePhase maxT r0 t2).1 = r0 := by
  simp only [demotePhase] at h ⊢
  have hw := demoteWalk_over maxT
    (isortBy entryLe (t2.enum.map fun p => (estimate_tokens p.2.signatures, p.1, p.2))).reverse
    r0 h
  rw [hw.1, hw.2]
  exact ⟨rfl, rfl⟩

/-! ## Claim C9 -/

/-- C9: for every manifest returned by prepare, whatever budget branches
ran, the estimated token count equals the fixed 2000 overhead plus the
estimated cost of the file tree plus the summed costs of the final
tier-1 contents plus the summed costs of the final tier-2 signatures,
with cost = character length divided by four. -/
theorem C9_estimated_tokens_recomputed (a : PrepArgs) :
    (prepare a).estimated_tokens =
      2000 + estimate_tokens (prepare a).file_tree +
      ((prepare a).tier1_files.map fun f => estimate_tokens f.content).sum +
      ((prepare a).tier2_files.map fun f => estimate_tokens f.signatures).sum := by
  show finalTotalOf a =
    2000 + estimate_tokens (fileTreeOf a) +
    ((finalTier1Of a).map fun f => estimate_tokens f.content).sum +
    ((afterDemoteTier2Of a).map fun f => estimate_tokens f.signatures).sum
  by_cases ht : a.maxTokens < afterDemoteTotalOf a
  · rw [finalTotalOf, if_pos ht]
    rfl
  · rw [finalTotalOf, if_neg ht, finalTier1Of, if_neg ht]
    by_cases hd : a.maxTokens < initTotalOf a
    · rw [afterDemoteTotalOf, if_pos hd, afterDemoteTier2Of, if_pos hd]
      simp only [demoteResOf]
      rw [demotePhase_total]
      rw [demoteBaseOf, treeTokOf, tier1TokOf]
    · rw [afterDemoteTotalOf, if_neg hd, afterDemoteTier2Of, if_neg hd]
      rfl

/-! ## Claim C10 -/

/-- C10: the tier-3 list of every returned manifest is sorted in the
lexicographic code-point order, and is a permutation of the original
tier-3 paths together with the paths demoted during budget fitting (so
demoted paths are merged into sorted position, not appended at the
end). -/
theorem C10_tier3_sorted_merged (a : PrepArgs) :
    ((prepare a).tier3_files).Pairwise (fun x y => strLeB x y = true) ∧
    List.Perm (prepare a).tier3_files (tier3FileStrsOf a ++ demotedPathsOf a) := by
  constructor
  · exact isortBy_pairwise strLeB strLeB_total strLeB_trans _
  · exact isortBy_perm strLeB _

/-! ## Claim C1 -/

/-- C1 counterexample: an empty repository under a limit of 1000.  The
total tier-1 cost after truncation is 0, within the limit, but the
returned manifest estimates 2002 tokens (the fixed 2000 overhead plus
the tree cost), exceeding the limit: the claim as stated ignores the
overhead and tree contributions. -/
theorem C1_counterexample :
    (((tier1FilesOf
        { skipDirs := [], maxTokens := 1000, maxFileSize := 500000,
          repoName := "r", repoPath := "/r", files := [] }).map fun f =>
            estimate_tokens (truncateContent f.content)).sum ≤ 1000) ∧
    1000 < (prepare
        { skipDirs := [], maxTokens := 1000, maxFileSize := 500000,
          repoName := "r", repoPath := "/r", files := [] }).estimated_tokens := by
  decide

/-- C1 (amended): whenever the fixed 2000 overhead plus the tree cost
plus the total tier-1 cost after truncating each tier-1 record is within
the configured limit, the estimated size of the returned manifest is
within the limit. -/
theorem C1_corrected (a : PrepArgs)
    (h : 2000 + treeTokOf a +
        ((tier1FilesOf a).map fun f => estimate_tokens (truncateContent f.content)).sum ≤
      a.maxTokens) :
    (prepare a).estimated_tokens ≤ a.maxTokens := by
  show finalTotalOf a ≤ a.maxTokens
  by_cases ht : a.maxTokens < afterDemoteTotalOf a
  · -- the truncation branch ran, so the demotion phase ended over the
    -- limit, which forces the demotion to have kept nothing
    have hd : a.maxTokens < initTotalOf a := by
      by_contra hd
      have : afterDemoteTotalOf a = initTotalOf a := by
        rw [afterDemoteTotalOf, if_neg hd]
      omega
    have hover : a.maxTokens < (demotePhase a.maxTokens (demoteBaseOf a) (tier2FilesOf a)).1 := by
      have : afterDemoteTotalOf a = (demoteResOf a).1 := by
        rw [afterDemoteTotalOf, if_pos hd]
      rw [this] at ht
      exact ht
    have hnil := (demotePhase_over _ _ _ hover).1
    have htier2 : afterDemoteTier2Of a = [] := by
      rw [afterDemoteTier2Of, if_pos hd]
      exact hnil
    rw [finalTotalOf, if_pos ht, htier2, finalTier1Of, if_pos ht, List.map_map]
    simp only [List.map_nil, List.sum_nil, Nat.add_zero]
    exact h
  · rw [finalTotalOf, if_neg ht]
    by_cases hd : a.maxTokens < initTotalOf a
    · exact Nat.not_lt.mp ht
    · exact Nat.not_lt.mp ht

/-- C1 witness: a concrete run of the amended claim. -/
theorem C1_corrected_witness :
    (2000 + treeTokOf
        { skipDirs := [], maxTokens := 150000, maxFileSize := 500000,
          repoName := "r", repoPath := "/r", files := [] } +
      ((tier1FilesOf
        { skipDirs := [], maxTokens := 150000, maxFileSize := 500000,
          repoName := "r", repoPath := "/r", files := [] }).map fun f =>
            estimate_tokens (truncateContent f.content)).sum ≤ 150000) ∧
    (prepare
        { skipDirs := [], maxTokens := 150000, maxFileSize := 500000,
          repoName := "r", repoPath := "/r", files := [] }).estimated_tokens ≤ 150000 :=
  ⟨by decide, C1_corrected _ (by decide)⟩

/-! ## Claim C3 -/

/-- A one-file repository (a two-character readme) under a limit of 0,
driving prepare into the truncation branch with a tier-1 record of a
single line. -/
def c3Args : PrepArgs :=
  { skipDirs := [], maxTokens := 0, maxFileSize := 500000,
    repoName := "r", repoPath := "/r",
    files := [{ parts := ["README.md"], isFile := true, size := 2, statOk := true,
                sniff := some [104, 105], text := some "hi" }] }

/-- C3 counterexample: the truncation step runs (the post-demotion total
exceeds the limit), yet the single tier-1 record keeps its two-character
content unchanged: no truncation-marker line is appended to records of
at most 200 lines, contrary to the claim that every tier-1 record is
truncated with the marker appended. -/
theorem C3_counterexample :
    c3Args.maxTokens < afterDemoteTotalOf c3Args ∧
    (prepare c3Args).tier1_files.map Tier1Rec.content = ["hi"] ∧
    ("hi" : String) ≠
      String.mk ((pySplitlines true "hi").take 200).flatten ++ "\n# ... (truncated)\n" := by
  decide

/-- C3 (amended): if the estimated total still exceeds the limit after
the demotion phase, prepare replaces the content of every tier-1 record
longer than 200 lines by its first 200 lines with the fixed marker line
appended (records of at most 200 lines stay unchanged — this is what
truncateContent computes), recomputes the total from the resulting
tier-1 contents plus the retained tier-2 set, and attempts no further
reduction: the manifest is returned with exactly that recomputed total
even when it is still over budget. -/
theorem C3_corrected (a : PrepArgs) (h : a.maxTokens < afterDemoteTotalOf a) :
    (prepare a).tier1_files =
      ((tier1FilesOf a).map fun f => { f with content := truncateContent f.content }) ∧
    (prepare a).tier2_files = afterDemoteTier2Of a ∧
    (prepare a).estimated_tokens =
      2000 + treeTokOf a +
      ((tier1FilesOf a).map fun f => estimate_tokens (truncateContent f.content)).sum +
      ((afterDemoteTier2Of a).map fun f => estimate_tokens f.signatures).sum := by
  refine ⟨?_, rfl, ?_⟩
  · show finalTier1Of a = _
    rw [finalTier1Of, if_pos h]
  · show finalTotalOf a = _
    rw [finalTotalOf, if_pos h, finalTier1Of, if_pos h, List.map_map]
    rfl

/-- C3 witness: a concrete run through the truncation branch, returned
over budget. -/
theorem C3_corrected_witness :
    (c3Args.maxTokens < afterDemoteTotalOf c3Args ∧
      c3Args.maxTokens < (prepare c3Args).estimated_tokens) ∧
    ((prepare c3Args).tier1_files =
      ((tier1FilesOf c3Args).map fun f => { f with content := truncateContent f.content }) ∧
    (prepare c3Args).tier2_files = afterDemoteTier2Of c3Args ∧
    (prepare c3Args).estimated_tokens =
      2000 + treeTokOf c3Args +
      ((tier1FilesOf c3Args).map fun f => estimate_tokens (truncateContent f.content)).sum +
      ((afterDemoteTier2Of c3Args).map fun f => estimate_tokens f.signatures).sum) :=
  ⟨by decide, C3_corrected c3Args (by decide)⟩

/-! ## Path bookkeeping lemmas -/

/-- The record paths of a filterMap over fallible reads are exactly the
relative paths of the files whose read succeeded. -/
theorem filterMap_paths {β : Type} (g : SrcFile → String → β) (pathOf : β → String)
    (hp : ∀ f c, pathOf (g f c) = relStr f) :
    ∀ l : List SrcFile,
      ((l.filterMap fun f => f.text.map (g f)).map pathOf) =
        (l.filter fun f => f.text.isSome).map relStr := by
  intro l
  induction l with
  | nil => rfl
  | cons f t ih =>
    cases htext : f.text with
    | none => simp [List.filterMap_cons, List.filter_cons, htext, ih]
    | some c => simp [List.filterMap_cons, List.filter_cons, htext, ih, hp]

/-- Filtering preserves distinctness of the relative paths. -/
theorem nodup_relStr_filter (p : SrcFile → Bool) (l : List SrcFile)
    (h : (l.map relStr).Nodup) : ((l.filter p).map relStr).Nodup :=
  h.sublist ((List.filter_sublist l).map relStr)

/-- A path reached through one filter cannot also be reached through a
filter with an incompatible predicate, when all paths are distinct. -/
theorem relStr_filter_disjoint (l : List SrcFile) (h : (l.map relStr).Nodup)
    (p q : SrcFile → Bool) (hpq : ∀ f, p f = true → q f = true → False) (x : String)
    (hx : x ∈ (l.filter p).map relStr) : x ∉ (l.filter q).map relStr := by
  intro hy
  rcases List.mem_map.mp hx with ⟨f1, hf1, rfl⟩
  rcases List.mem_map.mp hy with ⟨f2, hf2, heq⟩
  have hm1 : f1 ∈ l := List.mem_of_mem_filter hf1
  have hm2 : f2 ∈ l := List.mem_of_mem_filter hf2
  have : f2 = f1 := List.inj_on_of_nodup_map h hm2 hm1 heq
  subst this
  exact hpq f2 (List.of_mem_filter hf1) (List.of_mem_filter hf2)

/-- Index-tagged picks of a list with strictly increasing indices form a
sublist. -/
theorem map_snd_sublist_of_enumFrom {α : Type} :
    ∀ (l : List α) (k : Nat) (ps : List (Nat × α)),
      (∀ p ∈ ps, p ∈ List.enumFrom k l) → ps.Pairwise (fun a b => a.1 < b.1) →
      List.Sublist (ps.map Prod.snd) l := by
  intro l
  induction l with
  | nil =>
    intro k ps hmem _
    cases ps with
    | nil => simp
    | cons p ps2 => exact absurd (hmem p (List.mem_cons_self p ps2)) (by simp)
  | cons x xs ih =>
    intro k ps hmem hpw
    cases ps with
    | nil => simp
    | cons p ps2 =>
      rcases List.pairwise_cons.mp hpw with ⟨hplt, hpw2⟩
      have hp := hmem p (List.mem_cons_self p ps2)
      rcases List.mem_cons.mp hp with hphead | hptail
      · subst hphead
        simp only [List.map_cons]
        refine List.Sublist.cons₂ x (ih (k + 1) ps2 ?_ hpw2)
        intro q hq
        have hq2 := hmem q (List.mem_cons_of_mem _ hq)
        rcases List.mem_cons.mp hq2 with hqhead | hqtail
        · exfalso
          have := hplt q hq
          rw [hqhead] at this
          simp at this
        · exact hqtail
      · have hk1 : k + 1 ≤ p.1 := (List.mem_enumFrom hptail).1
        refine List.Sublist.cons x (ih (k + 1) (p :: ps2) ?_ hpw)
        intro q hq
        rcases List.mem_cons.mp hq with heq | hqtail
        · rw [heq]; exact hptail
        · have hq2 := hmem q (List.mem_cons_of_mem p hqtail)
          rcases List.mem_cons.mp hq2 with hqhead | hqtail2
          · exfalso
            have := hplt q hqtail
            rw [hqhead] at this
            simp only at this
            omega
          · exact hqtail2

theorem idxLe_total (a b : T2Entry) : idxLe a b = true ∨ idxLe b a = true := by
  simp only [idxLe, decide_eq_true_eq]
  omega

theorem idxLe_trans (a b c : T2Entry) (h1 : idxLe a b = true) (h2 : idxLe b c = true) :
    idxLe a c = true := by
  simp only [idxLe, decide_eq_true_eq] at h1 h2 ⊢
  omega

/-- The paths of the sized entries are the record paths. -/
theorem entries_paths (t2 : List Tier2Rec) :
    ((t2.enum.map fun p => (estimate_tokens p.2.signatures, p.1, p.2)).map fun e =>
        e.2.2.path) = t2.map Tier2Rec.path := by
  rw [List.map_map]
  have : ((fun e : T2Entry => e.2.2.path) ∘ fun p : Nat × Tier2Rec =>
      (estimate_tokens p.2.signatures, p.1, p.2)) = fun p : Nat × Tier2Rec => p.2.path := rfl
  rw [this]
  have : (fun p : Nat × Tier2Rec => p.2.path) = Tier2Rec.path ∘ Prod.snd := rfl
  rw [this, ← List.map_map, List.enum_map_snd]

/-- The entry indices are distinct (they come from the enumeration). -/
theorem entries_idx_nodup (t2 : List Tier2Rec) :
    ((t2.enum.map fun p => (estimate_tokens p.2.signatures, p.1, p.2)).map fun e =>
        e.2.1).Nodup := by
  rw [List.map_map]
  have : ((fun e : T2Entry => e.2.1) ∘ fun p : Nat × Tier2Rec =>
      (estimate_tokens p.2.signatures, p.1, p.2)) = Prod.fst := rfl
  rw [this, List.enum_map_fst]
  exact List.nodup_range _

/-- Every entry of an entry list produced from the enumeration projects
back into the enumeration. -/
theorem entries_mem_enum (t2 : List Tier2Rec) (e : T2Entry)
    (he : e ∈ t2.enum.map fun p => (estimate_tokens p.2.signatures, p.1, p.2)) :
    (e.2.1, e.2.2) ∈ t2.enum := by
  rcases List.mem_map.mp he with ⟨p, hp, rfl⟩
  exact hp

/-! ## Structural properties of the demotion phase -/

/-- The retained tier-2 records form a sublist of the original list:
restoring by ascending original index preserves the original relative
order. -/
theorem demotePhase_sublist (maxT r0 : Nat) (t2 : List Tier2Rec) :
    List.Sublist (demotePhase maxT r0 t2).2.1 t2 := by
  simp only [demotePhase]
  set entries := t2.enum.map fun p => (estimate_tokens p.2.signatures, p.1, p.2) with hentries
  set kept := (demoteWalk maxT r0 (isortBy entryLe entries).reverse).2.1 with hkept
  have hkperm : List.Perm (kept ++ (demoteWalk maxT r0 (isortBy entryLe entries).reverse).2.2)
      (isortBy entryLe entries).reverse := demoteWalk_perm maxT _ r0
  have hToEntries : List.Perm ((isortBy entryLe entries).reverse) entries :=
    ((isortBy entryLe entries).reverse_perm).trans (isortBy_perm entryLe entries)
  have hkmem : ∀ e ∈ kept, e ∈ entries := by
    intro e he
    exact (hkperm.trans hToEntries).mem_iff.mp (List.mem_append.mpr (Or.inl he))
  have hIdxNodupAll : ((kept ++ (demoteWalk maxT r0 (isortBy entryLe entries).reverse).2.2).map
      fun e => e.2.1).Nodup := by
    rw [((hkperm.trans hToEntries).map (fun e : T2Entry => e.2.1)).nodup_iff]
    exact entries_idx_nodup t2
  have hKeptIdxNodup : (kept.map fun e : T2Entry => e.2.1).Nodup := by
    rw [List.map_append] at hIdxNodupAll
    exact hIdxNodupAll.of_append_left
  have hSortPerm : List.Perm (isortBy idxLe kept) kept := isortBy_perm idxLe kept
  have hSortedLe : (isortBy idxLe kept).Pairwise (fun x y => idxLe x y = true) :=
    isortBy_pairwise idxLe idxLe_total idxLe_trans kept
  have hSortedIdxNodup : ((isortBy idxLe kept).map fun e : T2Entry => e.2.1).Nodup := by
    rw [(hSortPerm.map fun e : T2Entry => e.2.1).nodup_iff]
    exact hKeptIdxNodup
  have hSortedNe : (isortBy idxLe kept).Pairwise (fun x y => x.2.1 ≠ y.2.1) := by
    have := hSortedIdxNodup
    rw [List.Nodup, List.pairwise_map] at this
    exact this
  have hSortedLt : (isortBy idxLe kept).Pairwise (fun x y => x.2.1 < y.2.1) := by
    have hle : (isortBy idxLe kept).Pairwise (fun x y => x.2.1 ≤ y.2.1) := by
      refine hSortedLe.imp ?_
      intro x y hxy
      simpa only [idxLe, decide_eq_true_eq] using hxy
    exact (hle.and hSortedNe).imp fun h => lt_of_le_of_ne h.1 h.2
  have hPairsMem : ∀ q ∈ (isortBy idxLe kept).map fun e : T2Entry => (e.2.1, e.2.2),
      q ∈ List.enumFrom 0 t2 := by
    intro q hq
    rcases List.mem_map.mp hq with ⟨e, he, rfl⟩
    have he2 : e ∈ entries := hkmem e (hSortPerm.mem_iff.mp he)
    exact entries_mem_enum t2 e he2
  have hPairsLt : ((isortBy idxLe kept).map fun e : T2Entry => (e.2.1, e.2.2)).Pairwise
      (fun a b => a.1 < b.1) := by
    rw [List.pairwise_map]
    exact hSortedLt
  have hsub := map_snd_sublist_of_enumFrom t2 0
    ((isortBy idxLe kept).map fun e : T2Entry => (e.2.1, e.2.2)) hPairsMem hPairsLt
  rw [List.map_map] at hsub
  exact hsub

/-- Kept and demoted paths split the tier-2 record paths: the counts of
any path add up. -/
theorem demotePhase_path_counts (maxT r0 : Nat) (t2 : List Tier2Rec) (x : String) :
    ((demotePhase maxT r0 t2).2.1.map Tier2Rec.path).count x +
      ((demotePhase maxT r0 t2).2.2).count x = (t2.map Tier2Rec.path).count x := by
  simp only [demotePhase]
  set entries := t2.enum.map fun p => (estimate_tokens p.2.signatures, p.1, p.2) with hentries
  set kept := (demoteWalk maxT r0 (isortBy entryLe entries).reverse).2.1 with hkept
  set dem := (demoteWalk maxT r0 (isortBy entryLe entries).reverse).2.2 with hdem
  have hkperm : List.Perm (kept ++ dem) ((isortBy entryLe entries).reverse) :=
    demoteWalk_perm maxT _ r0
  have hToEntries : List.Perm ((isortBy entryLe entries).reverse) entries :=
    ((isortBy entryLe entries).reverse_perm).trans (isortBy_perm entryLe entries)
  have hSortPerm : List.Perm (isortBy idxLe kept) kept := isortBy_perm idxLe kept
  have h1 : ((isortBy idxLe kept).map fun e : T2Entry => e.2.2).map Tier2Rec.path =
      (isortBy idxLe kept).map fun e : T2Entry => e.2.2.path := by
    rw [List.map_map]; rfl
  rw [h1]
  have h2 : (((isortBy idxLe kept).map fun e : T2Entry => e.2.2.path).count x) =
      ((kept.map fun e : T2Entry => e.2.2.path).count x) :=
    (hSortPerm.map fun e : T2Entry => e.2.2.path).count_eq x
  have h3 : (dem.map fun e : T2Entry => e.2.2.path) = dem.map fun e : T2Entry => e.2.2.path := rfl
  rw [h2]
  have h4 : (kept.map fun e : T2Entry => e.2.2.path).count x +
      (dem.map fun e : T2Entry => e.2.2.path).count x =
      ((kept ++ dem).map fun e : T2Entry => e.2.2.path).count x := by
    rw [List.map_append, List.count_append]
  rw [h4]
  have h5 := ((hkperm.trans hToEntries).map fun e : T2Entry => e.2.2.path).count_eq x
  rw [h5, hentries, entries_paths]

/-- With distinct record paths the demoted path list is itself free of
duplicates. -/
theorem demotePhase_dem_nodup (maxT r0 : Nat) (t2 : List Tier2Rec)
    (h : (t2.map Tier2Rec.path).Nodup) : (demotePhase maxT r0 t2).2.2.Nodup := by
  simp only [demotePhase]
  set entries := t2.enum.map fun p => (estimate_tokens p.2.signatures, p.1, p.2) with hentries
  have hkperm := demoteWalk_perm maxT (isortBy entryLe entries).reverse r0
  have hToEntries : List.Perm ((isortBy entryLe entries).reverse) entries :=
    ((isortBy entryLe entries).reverse_perm).trans (isortBy_perm entryLe entries)
  have hAll : (((demoteWalk maxT r0 (isortBy entryLe entries).reverse).2.1 ++
      (demoteWalk maxT r0 (isortBy entryLe entries).reverse).2.2).map
      fun e : T2Entry => e.2.2.path).Nodup := by
    rw [((hkperm.trans hToEntries).map fun e : T2Entry => e.2.2.path).nodup_iff]
    rw [hentries, entries_paths]
    exact h
  rw [List.map_append] at hAll
  exact hAll.of_append_right

/-! ## Record-path lemmas of the prepare phases -/

theorem tier1_paths_eq (all : List SrcFile) :
    (tier1RecsOf all).map Tier1Rec.path =
      ((tier1PathsOf all).filter fun f => f.text.isSome).map relStr :=
  filterMap_paths _ Tier1Rec.path (fun _ _ => rfl) _

theorem tier2_paths_eq (all : List SrcFile) :
    (tier2RecsOf all).map Tier2Rec.path =
      ((tier2PathsOf all).filter fun f => f.text.isSome).map relStr :=
  filterMap_paths _ Tier2Rec.path (fun _ _ => rfl) _

theorem allFiles_nodup (a : PrepArgs) (hnd : (a.files.map relStr).Nodup) :
    ((allFilesOf a).map relStr).Nodup := by
  simp only [allFilesOf, discovered]
  exact nodup_relStr_filter _ _ hnd

theorem tier1_paths_nodup (a : PrepArgs) (hnd : (a.files.map relStr).Nodup) :
    ((tier1FilesOf a).map Tier1Rec.path).Nodup := by
  rw [tier1FilesOf, tier1_paths_eq]
  simp only [tier1PathsOf]
  exact nodup_relStr_filter _ _ (nodup_relStr_filter _ _ (allFiles_nodup a hnd))

theorem tier2_paths_nodup (a : PrepArgs) (hnd : (a.files.map relStr).Nodup) :
    ((tier2FilesOf a).map Tier2Rec.path).Nodup := by
  rw [tier2FilesOf, tier2_paths_eq]
  simp only [tier2PathsOf]
  exact nodup_relStr_filter _ _ (nodup_relStr_filter _ _ (allFiles_nodup a hnd))

/-- Every demoted path is a tier-2 record path. -/
theorem demotePhase_dem_paths_mem (maxT r0 : Nat) (t2 : List Tier2Rec) :
    ∀ p ∈ (demotePhase maxT r0 t2).2.2, p ∈ t2.map Tier2Rec.path := by
  intro p hp
  simp only [demotePhase] at hp
  rcases List.mem_map.mp hp with ⟨e, he, rfl⟩
  set entries := t2.enum.map fun q => (estimate_tokens q.2.signatures, q.1, q.2) with hentries
  have hkperm := demoteWalk_perm maxT (isortBy entryLe entries).reverse r0
  have hToEntries : List.Perm ((isortBy entryLe entries).reverse) entries :=
    ((isortBy entryLe entries).reverse_perm).trans (isortBy_perm entryLe entries)
  have he2 : e ∈ entries :=
    (hkperm.trans hToEntries).mem_iff.mp (List.mem_append.mpr (Or.inr he))
  rw [← entries_paths t2]
  exact List.mem_map_of_mem _ he2

/-- A tier-2 record path never occurs among the original tier-3 strings
when all walked paths are distinct. -/
theorem tier2_path_not_tier3 (a : PrepArgs) (hnd : (a.files.map relStr).Nodup)
    (p : String) (hp : p ∈ (tier2FilesOf a).map Tier2Rec.path) :
    p ∉ tier3FileStrsOf a := by
  have hall := allFiles_nodup a hnd
  rw [tier2FilesOf, tier2_paths_eq] at hp
  simp only [tier2PathsOf] at hp
  rw [List.filter_filter] at hp
  have hdisj := relStr_filter_disjoint (allFilesOf a) hall
    (fun f => f.text.isSome && (classify_file f.parts == 2))
    (fun f => !(classify_file f.parts == 1) && !(classify_file f.parts == 2))
    (fun f h1 h2 => by
      simp only [Bool.and_eq_true, beq_iff_eq, Bool.not_eq_true', beq_eq_false_iff_ne] at h1 h2
      exact h2.2 h1.2)
    p hp
  simpa only [tier3FileStrsOf, tier3StrsOf, tier3PathsOf] using hdisj

/-! ## Claim C2 -/

/-- C2: when the initial estimate exceeds the limit, prepare performs
exactly the demotion procedure demotePhase (rank by ascending cost with
the stable tie-break, walk from the most expensive down keeping a record
while the running total starting at overhead + tree + tier-1 cost stays
within the limit, demote the rest by dropping the record and appending
its path to tier 3, restore the kept records by original index); the
returned tier-2 list is a sublist of the original (original relative
order), and every demoted path occurs exactly once in the final tier-3
list and not at all among the final tier-2 paths. -/
theorem C2_demotion_procedure (a : PrepArgs)
    (hover : a.maxTokens < initTotalOf a)
    (hnd : (a.files.map relStr).Nodup) :
    ((prepare a).tier2_files = (demoteResOf a).2.1 ∧
     List.Perm (prepare a).tier3_files (tier3FileStrsOf a ++ (demoteResOf a).2.2)) ∧
    List.Sublist (prepare a).tier2_files (tier2FilesOf a) ∧
    ∀ p ∈ (demoteResOf a).2.2,
      (prepare a).tier3_files.count p = 1 ∧
      ¬ p ∈ (prepare a).tier2_files.map Tier2Rec.path := by
  have htier2 : (prepare a).tier2_files = (demoteResOf a).2.1 := by
    show afterDemoteTier2Of a = _
    rw [afterDemoteTier2Of, if_pos hover]
  have hdem : demotedPathsOf a = (demoteResOf a).2.2 := by
    rw [demotedPathsOf, if_pos hover]
  have ht3perm : List.Perm (prepare a).tier3_files
      (tier3FileStrsOf a ++ (demoteResOf a).2.2) := by
    have h3eq : (prepare a).tier3_files =
        isortBy strLeB (tier3FileStrsOf a ++ (demoteResOf a).2.2) := by
      show isortBy strLeB (tier3PreSortOf a) = _
      rw [tier3PreSortOf, hdem]
    rw [h3eq]
    exact isortBy_perm strLeB _
  have hT2nodup : ((tier2FilesOf a).map Tier2Rec.path).Nodup := tier2_paths_nodup a hnd
  refine ⟨⟨htier2, ht3perm⟩, ?_, ?_⟩
  · rw [htier2]
    exact demotePhase_sublist a.maxTokens (demoteBaseOf a) (tier2FilesOf a)
  · intro p hp
    have hpmem : p ∈ (tier2FilesOf a).map Tier2Rec.path :=
      demotePhase_dem_paths_mem a.maxTokens (demoteBaseOf a) (tier2FilesOf a) p hp
    have hdemNodup : (demoteResOf a).2.2.Nodup :=
      demotePhase_dem_nodup a.maxTokens (demoteBaseOf a) (tier2FilesOf a) hT2nodup
    have hcntdem : (demoteResOf a).2.2.count p = 1 := List.count_eq_one_of_mem hdemNodup hp
    have hcnt3 : (tier3FileStrsOf a).count p = 0 :=
      List.count_eq_zero.mpr (tier2_path_not_tier3 a hnd p hpmem)
    constructor
    · rw [ht3perm.count_eq p, List.count_append, hcnt3, hcntdem]
    · have hcounts := demotePhase_path_counts a.maxTokens (demoteBaseOf a) (tier2FilesOf a) p
      have hcntT2 : ((tier2FilesOf a).map Tier2Rec.path).count p = 1 :=
        List.count_eq_one_of_mem hT2nodup hpmem
      rw [htier2]
      intro hmem2
      have hne : ((demoteResOf a).2.1.map Tier2Rec.path).count p ≠ 0 := fun h0 =>
        (List.count_eq_zero.mp h0) hmem2
      have hcnts2 : ((demoteResOf a).2.1.map Tier2Rec.path).count p +
          (demoteResOf a).2.2.count p = 1 := by
        rw [← hcntT2]
        exact hcounts
      omega

/-- A two-file repository whose initial estimate exceeds the limit by
two tokens: the demotion keeps the larger signature file and demotes the
smaller one. -/
def c2Args : PrepArgs :=
  { skipDirs := [], maxTokens := 2022, maxFileSize := 500000,
    repoName := "r", repoPath := "/r",
    files := [{ parts := ["a.py"], isFile := true, size := 67, statOk := true,
                sniff := some [105], text :=
                  some "import aaaaaaaaaaaaaaaaaaaaaaaaaaaaaaaaaaaaaaaaaaaaaaaaaaaaaaaaaaaa" },
              { parts := ["b.py"], isFile := true, size := 19, statOk := true,
                sniff := some [105], text := some "import bbbbbbbbbbbb" }] }

/-- C2 witness: a concrete over-budget run through the demotion phase. -/
theorem C2_demotion_procedure_witness :
    (c2Args.maxTokens < initTotalOf c2Args ∧ (c2Args.files.map relStr).Nodup) ∧
    (((prepare c2Args).tier2_files = (demoteResOf c2Args).2.1 ∧
      List.Perm (prepare c2Args).tier3_files
        (tier3FileStrsOf c2Args ++ (demoteResOf c2Args).2.2)) ∧
     List.Sublist (prepare c2Args).tier2_files (tier2FilesOf c2Args) ∧
     ∀ p ∈ (demoteResOf c2Args).2.2,
       (prepare c2Args).tier3_files.count p = 1 ∧
       ¬ p ∈ (prepare c2Args).tier2_files.map Tier2Rec.path) :=
  ⟨⟨by decide, by decide⟩, C2_demotion_procedure c2Args (by decide) (by decide)⟩

/-! ## Claim C4 -/

/-- How often a path occurs across the three tier collections of a
manifest. -/
def manifestPathCount (m : RepoManifest) (p : String) : Nat :=
  (m.tier1_files.map Tier1Rec.path).count p + (m.tier2_files.map Tier2Rec.path).count p +
  m.tier3_files.count p

/-- Truncation changes contents only, never paths. -/
theorem finalTier1_paths (a : PrepArgs) :
    (finalTier1Of a).map Tier1Rec.path = (tier1FilesOf a).map Tier1Rec.path := by
  rw [finalTier1Of]
  split
  · rw [List.map_map]
    rfl
  · rfl

/-- The classifier returns one of the three tiers. -/
theorem classify_file_cases (relParts : List String) :
    classify_file relParts = 1 ∨ classify_file relParts = 2 ∨ classify_file relParts = 3 := by
  simp only [classify_file]
  split_ifs <;> simp

/-- Occurrences of a known file path in a filtered projection: one when
the file passes the filter, zero otherwise (the paths are distinct). -/
theorem relStr_count_filter (l : List SrcFile) (h : (l.map relStr).Nodup)
    (pred : SrcFile → Bool) (f : SrcFile) (hf : f ∈ l) :
    ((l.filter pred).map relStr).count (relStr f) = if pred f = true then 1 else 0 := by
  by_cases hp : pred f = true
  · rw [if_pos hp]
    exact List.count_eq_one_of_mem (nodup_relStr_filter pred l h)
      (List.mem_map_of_mem relStr (List.mem_filter.mpr ⟨hf, hp⟩))
  · rw [if_neg hp]
    apply List.count_eq_zero.mpr
    intro hmem
    rcases List.mem_map.mp hmem with ⟨f2, hf2, heq⟩
    have hf2l : f2 ∈ l := List.mem_of_mem_filter hf2
    have heqf : f2 = f := List.inj_on_of_nodup_map h hf2l hf heq
    subst heqf
    exact hp (List.of_mem_filter hf2)

/-- Tier-2 and tier-3 occurrences are jointly conserved by the demotion
step. -/
theorem final_t2_t3_counts (a : PrepArgs) (p : String) :
    ((prepare a).tier2_files.map Tier2Rec.path).count p + (prepare a).tier3_files.count p =
      ((tier2FilesOf a).map Tier2Rec.path).count p + (tier3FileStrsOf a).count p := by
  have h3 : (prepare a).tier3_files.count p =
      (tier3FileStrsOf a).count p + (demotedPathsOf a).count p := by
    show (isortBy strLeB (tier3PreSortOf a)).count p = _
    rw [(isortBy_perm strLeB (tier3PreSortOf a)).count_eq, tier3PreSortOf, List.count_append]
  by_cases hd : a.maxTokens < initTotalOf a
  · have ht2 : (prepare a).tier2_files = (demoteResOf a).2.1 := by
      show afterDemoteTier2Of a = _
      rw [afterDemoteTier2Of, if_pos hd]
    have hdp : demotedPathsOf a = (demoteResOf a).2.2 := by
      rw [demotedPathsOf, if_pos hd]
    rw [h3, ht2, hdp]
    have hc := demotePhase_path_counts a.maxTokens (demoteBaseOf a) (tier2FilesOf a) p
    have hc2 : ((demoteResOf a).2.1.map Tier2Rec.path).count p +
        (demoteResOf a).2.2.count p = ((tier2FilesOf a).map Tier2Rec.path).count p := hc
    omega
  · have ht2 : (prepare a).tier2_files = tier2FilesOf a := by
      show afterDemoteTier2Of a = _
      rw [afterDemoteTier2Of, if_neg hd]
    have hdp : demotedPathsOf a = [] := by
      rw [demotedPathsOf, if_neg hd]
    rw [h3, ht2, hdp]
    simp only [List.count_nil]
    omega

/-- C4 counterexample: a repository with one discovered non-binary
readme whose content read fails.  The file is discovered (it survived
all walk filters) yet appears in none of the three tier collections of
the returned manifest, against the claimed exactly-one invariant. -/
def c4Args : PrepArgs :=
  { skipDirs := [], maxTokens := 150000, maxFileSize := 500000,
    repoName := "r", repoPath := "/r",
    files := [{ parts := ["README.md"], isFile := true, size := 10, statOk := true,
                sniff := some [72], text := none }] }

theorem C4_counterexample :
    (allFilesOf c4Args).map relStr = ["README.md"] ∧
    manifestPathCount (prepare c4Args) "README.md" = 0 := by decide

/-- C4 (amended): when all walked paths are distinct, a discovered
non-binary file appears in exactly one of the three tier collections
precisely when it is classified tier 3 or its content read succeeds; a
tier-1- or tier-2-classified file whose read fails appears in none. -/
theorem C4_corrected (a : PrepArgs) (hnd : (a.files.map relStr).Nodup)
    (f : SrcFile) (hf : f ∈ allFilesOf a) :
    manifestPathCount (prepare a) (relStr f) =
      if classify_file f.parts = 3 ∨ f.text.isSome = true then 1 else 0 := by
  have hall : ((allFilesOf a).map relStr).Nodup := allFiles_nodup a hnd
  have h1 : ((prepare a).tier1_files.map Tier1Rec.path).count (relStr f) =
      if (f.text.isSome && (classify_file f.parts == 1)) = true then 1 else 0 := by
    show ((finalTier1Of a).map Tier1Rec.path).count (relStr f) = _
    rw [finalTier1_paths, tier1FilesOf, tier1_paths_eq]
    simp only [tier1PathsOf]
    rw [List.filter_filter]
    exact relStr_count_filter (allFilesOf a) hall _ f hf
  have h2 : ((tier2FilesOf a).map Tier2Rec.path).count (relStr f) =
      if (f.text.isSome && (classify_file f.parts == 2)) = true then 1 else 0 := by
    rw [tier2FilesOf, tier2_paths_eq]
    simp only [tier2PathsOf]
    rw [List.filter_filter]
    exact relStr_count_filter (allFilesOf a) hall _ f hf
  have h3 : (tier3FileStrsOf a).count (relStr f) =
      if (!(classify_file f.parts == 1) && !(classify_file f.parts == 2)) = true
      then 1 else 0 := by
    simp only [tier3FileStrsOf, tier3StrsOf, tier3PathsOf]
    exact relStr_count_filter (allFilesOf a) hall _ f hf
  have hsplit := final_t2_t3_counts a (relStr f)
  simp only [manifestPathCount]
  rw [Nat.add_assoc, hsplit, h1, h2, h3]
  rcases classify_file_cases f.parts with hc | hc | hc <;>
    cases htext : f.text.isSome <;>
      simp [hc, htext]

/-- C4 witness: the amended statement at the unreadable readme. -/
theorem C4_corrected_witness :
    ((c4Args.files.map relStr).Nodup ∧
     ({ parts := ["README.md"], isFile := true, size := 10, statOk := true,
        sniff := some [72], text := none } : SrcFile) ∈ allFilesOf c4Args) ∧
    manifestPathCount (prepare c4Args)
        (relStr { parts := ["README.md"], isFile := true, size := 10, statOk := true,
                  sniff := some [72], text := none }) =
      if classify_file ["README.md"] = 3 ∨ (none : Option String).isSome = true
      then 1 else 0 :=
  ⟨⟨by decide, by decide⟩, C4_corrected c4Args (by decide) _ (by decide)⟩

/-! ## Claim C7 -/

/-- A declaration line already ending in a colon takes no continuation
lines. -/
theorem grabContinuation_colon (prev : Line) (rest acc : List Line)
    (h : endsColon prev = true) : grabContinuation prev rest acc = (rest, acc) := by
  cases rest <;> simp [grabContinuation, h]

/-- A single-line docstring is grabbed whole. -/
theorem maybeGrabDocstring_single (ds : Line) (rest acc : List Line)
    (h1 : startsWithL "\"\"\"" (lstripL ds) = true)
    (h2 : 2 ≤ countSub ((lstripL ds).take 3) (lstripL ds)) :
    maybeGrabDocstring (ds :: rest) acc = (rest, acc ++ [ds]) := by
  simp [maybeGrabDocstring, h1, h2]

/-- A body of blank or indented lines is skipped entirely at level 0. -/
theorem skipPythonBlock_all (body : List Line)
    (h : ∀ b ∈ body, isBlankL b = true ∨ 1 ≤ indentOf b) :
    skipPythonBlock 0 body = [] := by
  induction body with
  | nil => rfl
  | cons b t ih =>
    have ht : ∀ x ∈ t, isBlankL x = true ∨ 1 ≤ indentOf x := fun x hx =>
      h x (List.mem_cons_of_mem b hx)
    cases hblank : isBlankL b with
    | true => simp [skipPythonBlock, hblank, ih ht]
    | false =>
      have hb := h b (List.mem_cons_self b t)
      rw [hblank] at hb
      rcases hb with hb | hb
      · exact absurd hb (by simp)
      · have hle : ¬ indentOf b ≤ 0 := by omega
        simp [skipPythonBlock, hblank, hle, ih ht]

/-- C7: for a Python source consisting of a def declaration line (ending
in a colon), a single-line docstring, and a body of blank or indented
statement lines, the extracted signature is exactly the def line, the
docstring, and one four-space ellipsis placeholder: it contains the def
line and the docstring, exactly one ellipsis line, and none of the body
statement lines (up to textual coincidence of a body line with the
docstring or the placeholder). -/
theorem C7_def_docstring_body (r : Line) (ds : Line) (body : List Line)
    (hd : endsColon ('d' :: 'e' :: 'f' :: ' ' :: r) = true)
    (hds1 : startsWithL "\"\"\"" (lstripL ds) = true)
    (hds2 : 2 ≤ countSub ((lstripL ds).take 3) (lstripL ds))
    (hbody : ∀ b ∈ body, isBlankL b = true ∨ 1 ≤ indentOf b) :
    extract_python_signatures_lines (('d' :: 'e' :: 'f' :: ' ' :: r) :: ds :: body) =
      [('d' :: 'e' :: 'f' :: ' ' :: r), ds, "    ...".toList] ∧
    (extract_python_signatures_lines
        (('d' :: 'e' :: 'f' :: ' ' :: r) :: ds :: body)).count "    ...".toList = 1 ∧
    ∀ b ∈ body, b ≠ ds → b ≠ "    ...".toList →
      b ∉ extract_python_signatures_lines (('d' :: 'e' :: 'f' :: ' ' :: r) :: ds :: body) := by
  have hind : indentOf ('d' :: 'e' :: 'f' :: ' ' :: r) = 0 := by
    have h0 : lstripL ('d' :: 'e' :: 'f' :: ' ' :: r) = ('d' :: 'e' :: 'f' :: ' ' :: r) := rfl
    simp [indentOf, h0]
  have e1 : extract_python_signatures_lines (('d' :: 'e' :: 'f' :: ' ' :: r) :: ds :: body) =
      (extractPythonBlock (('d' :: 'e' :: 'f' :: ' ' :: r) :: ds :: body).length
        (skipPythonBlock (indentOf ('d' :: 'e' :: 'f' :: ' ' :: r))
          (maybeGrabDocstring
            (grabContinuation ('d' :: 'e' :: 'f' :: ' ' :: r) (ds :: body)
              ([] ++ [('d' :: 'e' :: 'f' :: ' ' :: r)])).1
            (grabContinuation ('d' :: 'e' :: 'f' :: ' ' :: r) (ds :: body)
              ([] ++ [('d' :: 'e' :: 'f' :: ' ' :: r)])).2).1)
        (-1)
        ((maybeGrabDocstring
            (grabContinuation ('d' :: 'e' :: 'f' :: ' ' :: r) (ds :: body)
              ([] ++ [('d' :: 'e' :: 'f' :: ' ' :: r)])).1
            (grabContinuation ('d' :: 'e' :: 'f' :: ' ' :: r) (ds :: body)
              ([] ++ [('d' :: 'e' :: 'f' :: ' ' :: r)])).2).2 ++
          [spacesL (indentOf ('d' :: 'e' :: 'f' :: ' ' :: r) + 4) ++ "...".toList])).2 := rfl
  have hg : grabContinuation ('d' :: 'e' :: 'f' :: ' ' :: r) (ds :: body)
      ([] ++ [('d' :: 'e' :: 'f' :: ' ' :: r)]) =
      (ds :: body, [('d' :: 'e' :: 'f' :: ' ' :: r)]) :=
    grabContinuation_colon _ _ _ hd
  have hm : maybeGrabDocstring (ds :: body) [('d' :: 'e' :: 'f' :: ' ' :: r)] =
      (body, [('d' :: 'e' :: 'f' :: ' ' :: r), ds]) := by
    rw [maybeGrabDocstring_single ds body _ hds1 hds2]
    rfl
  have hout : extract_python_signatures_lines
      (('d' :: 'e' :: 'f' :: ' ' :: r) :: ds :: body) =
      [('d' :: 'e' :: 'f' :: ' ' :: r), ds, "    ...".toList] := by
    rw [e1, hg, hm, hind, skipPythonBlock_all body hbody]
    rfl
  have hdne : ('d' :: 'e' :: 'f' :: ' ' :: r) ≠ "    ...".toList := by
    intro h
    simp at h
  have hdsne : ds ≠ "    ...".toList := by
    intro h
    rw [h] at hds1
    exact absurd hds1 (by decide)
  refine ⟨hout, ?_, ?_⟩
  · rw [hout]
    have h1 : (('d' :: 'e' :: 'f' :: ' ' :: r) == "    ...".toList) = false := by
      rw [beq_eq_false_iff_ne]
      exact hdne
    have h2 : (ds == "    ...".toList) = false := by
      rw [beq_eq_false_iff_ne]
      exact hdsne
    rw [List.count_cons, List.count_cons, List.count_cons, h1, h2]
    simp
  · intro b hb hbds hbell hmem
    rw [hout] at hmem
    rcases List.mem_cons.mp hmem with hbd | hmem2
    · have hbb := hbody b hb
      rw [hbd] at hbb
      rcases hbb with hbb | hbb
      · simp [isBlankL, isPySpace] at hbb
      · rw [hind] at hbb
        omega
    · rcases List.mem_cons.mp hmem2 with hbds2 | hmem3
      · exact hbds hbds2
      · rcases List.mem_cons.mp hmem3 with hbell2 | hmem4
        · exact hbell hbell2
        · exact absurd hmem4 (List.not_mem_nil b)

/-- The concrete body of the C7 scenario: ten indented statements. -/
def c7Body : List Line :=
  ["    a1 = 1", "    a2 = 2", "    a3 = 3", "    a4 = 4", "    a5 = 5",
   "    a6 = 6", "    a7 = 7", "    a8 = 8", "    a9 = 9", "    return a1"].map
    String.toList

/-- The concrete single-line docstring of the C7 scenario. -/
def c7Doc : Line := "    \"\"\"Add two numbers.\"\"\"".toList

/-- C7 witness: a def line with a docstring and ten body statements. -/
theorem C7_def_docstring_body_witness :
    (endsColon ('d' :: 'e' :: 'f' :: ' ' :: "add(a, b):".toList) = true ∧
     startsWithL "\"\"\"" (lstripL c7Doc) = true ∧
     2 ≤ countSub ((lstripL c7Doc).take 3) (lstripL c7Doc) ∧
     ∀ b ∈ c7Body, isBlankL b = true ∨ 1 ≤ indentOf b) ∧
    (extract_python_signatures_lines
        (('d' :: 'e' :: 'f' :: ' ' :: "add(a, b):".toList) :: c7Doc :: c7Body) =
      [('d' :: 'e' :: 'f' :: ' ' :: "add(a, b):".toList), c7Doc, "    ...".toList] ∧
    (extract_python_signatures_lines
        (('d' :: 'e' :: 'f' :: ' ' :: "add(a, b):".toList) :: c7Doc :: c7Body)).count
      "    ...".toList = 1 ∧
    ∀ b ∈ c7Body, b ≠ c7Doc → b ≠ "    ...".toList →
      b ∉ extract_python_signatures_lines
        (('d' :: 'e' :: 'f' :: ' ' :: "add(a, b):".toList) :: c7Doc :: c7Body)) :=
  ⟨⟨by decide, by decide, by decide, by decide⟩,
   C7_def_docstring_body "add(a, b):".toList c7Doc c7Body
     (by decide) (by decide) (by decide) (by decide)⟩

/-! ## Claim C8 -/

/-- The class-declaration line of the C8 scenario. -/
def pubClassFoo : Line := "public class Foo \x7b".toList

/-- A class member line: four-space indentation, the public keyword, and
an arbitrary tail. -/
def indentPub (mr : Line) : Line :=
  ' ' :: ' ' :: ' ' :: ' ' :: 'p' :: 'u' :: 'b' :: 'l' :: 'i' :: 'c' :: ' ' :: mr

/-- The elision marker emitted for a member at indentation four. -/
def elisionJava : Line := "      // ...".toList

theorem indentPub_indent (mr : Line) : indentOf (indentPub mr) = 4 := by
  have h0 : lstripL (' ' :: ' ' :: ' ' :: ' ' :: 'p' :: 'u' :: 'b' :: 'l' :: 'i' :: 'c' ::
      ' ' :: mr) = 'p' :: 'u' :: 'b' :: 'l' :: 'i' :: 'c' :: ' ' :: mr := rfl
  simp only [indentOf, indentPub, h0, List.length_cons]
  omega

theorem skipBraceGo_zero (rs : List Line) : skipBraceGo 0 rs = rs := by
  cases rs <;> simp [skipBraceGo]

/-- Skipping at depth one runs through brace-free lines and ends right
after the line holding the closing brace. -/
theorem skipBraceGo_through (body : List Line)
    (hb : ∀ b ∈ body, countCh '\x7b' b = 0 ∧ countCh '\x7d' b = 0)
    (closeJ : Line) (hcj : countCh '\x7b' closeJ = 0 ∧ countCh '\x7d' closeJ = 1) :
    ∀ rest : List Line, skipBraceGo 1 (body ++ closeJ :: rest) = rest := by
  induction body with
  | nil =>
    intro rest
    show skipBraceGo 1 (closeJ :: rest) = rest
    have h1 : ¬ ((1 : Int) ≤ 0) := by norm_num
    simp only [skipBraceGo, if_neg h1, hcj.1, hcj.2]
    have h2 : (1 : Int) + ((0 : Nat) : Int) - ((1 : Nat) : Int) = 0 := by norm_num
    rw [h2, skipBraceGo_zero]
  | cons b bt ih =>
    intro rest
    have hbb := hb b (List.mem_cons_self b bt)
    have hbt : ∀ x ∈ bt, countCh '\x7b' x = 0 ∧ countCh '\x7d' x = 0 := fun x hx =>
      hb x (List.mem_cons_of_mem b hx)
    show skipBraceGo 1 (b :: (bt ++ closeJ :: rest)) = rest
    have h1 : ¬ ((1 : Int) ≤ 0) := by norm_num
    simp only [skipBraceGo, if_neg h1, hbb.1, hbb.2]
    have h2 : (1 : Int) + ((0 : Nat) : Int) - ((0 : Nat) : Int) = 1 := by norm_num
    rw [h2]
    exact ih hbt rest

/-- The member scan stops as soon as the depth reaches zero. -/
theorem memberSigLoop_done (fuel : Nat) (rs : List Line) (lang : String) (acc : List Line) :
    memberSigLoop fuel rs 0 lang acc = (rs, acc) := by
  cases fuel <;> rfl

/-- The outer scan on an exhausted input returns the output. -/
theorem extractCurlyLoop_nil (fuel : Nat) (lang : String) (acc : List Line) :
    extractCurlyLoop fuel [] lang acc = ([], acc) := by
  cases fuel <;> rfl

/-- The class-declaration step of the C8 scenario: the declaration line
is kept and the scan enters the member scanner. -/
theorem curly_cls_step (fuel : Nat) (rest acc : List Line) :
    extractCurlyLoop (fuel + 1) (pubClassFoo :: rest) "java" acc =
      extractCurlyLoop fuel
        (memberSigLoop (rest.length + 1) rest 1 "java" (acc ++ [pubClassFoo])).1
        "java"
        (memberSigLoop (rest.length + 1) rest 1 "java" (acc ++ [pubClassFoo])).2 := rfl

/-- One member-scan step on an indented public member line at depth one:
the line opens a block exactly when it holds an opening brace. -/
theorem member_line_step (fuel : Nat) (mr : Line) (rs acc : List Line) :
    memberSigLoop (fuel + 1) (indentPub mr :: rs) 1 "java" acc =
      if 0 < ((countCh '\x7b' (indentPub mr) : Int)) then
        memberSigLoop fuel
          (skipBraceGo ((countCh '\x7b' (indentPub mr) : Int) -
            (countCh '\x7d' (indentPub mr) : Int)) rs)
          1 "java"
          (acc ++ [indentPub mr] ++
            [spacesL (indentOf (indentPub mr) + 2) ++ "// ...".toList])
      else memberSigLoop fuel rs 1 "java" (acc ++ [indentPub mr]) := rfl

/-- One member-scan step on a closing-brace line at depth one. -/
theorem member_close_step (fuel : Nat) (ccr : Line) (rs acc : List Line) :
    memberSigLoop (fuel + 1) (('\x7d' :: ccr) :: rs) 1 "java" acc =
      memberSigLoop fuel rs
        ((1 : Int) - (countCh '\x7d' ('\x7d' :: ccr) : Int) +
          (countCh '\x7b' ('\x7d' :: ccr) : Int))
        "java" (acc ++ [('\x7d' :: ccr)]) := by
  have hpre : List.isPrefixOf ([] : List Char) ccr = true := by
    simp [List.isPrefixOf]
  have hls : lstripL ('\x7d' :: ccr) = '\x7d' :: ccr := rfl
  have hsw : startsWithL "\x7d" ('\x7d' :: ccr) = true := by
    simp [startsWithL, List.isPrefixOf, hpre]
  simp only [memberSigLoop, hls, hsw]
  norm_num

/-- C8 (amended): for a Java class with two public methods, one opening
and closing its body on the signature line and one opening a
multi-statement body, the extracted signature is exactly the class
declaration, the one-liner line kept verbatim (its body text included,
since it shares the signature line), an elision marker, the second
signature line, another elision marker, and the class closing brace:
both signature lines and exactly two markers appear, and no line of the
multi-statement body does (up to textual coincidence with the marker). -/
theorem C8_corrected (m1r m2r : Line) (body : List Line) (closeJ ccr : Line)
    (hm1o : countCh '\x7b' (indentPub m1r) = 1) (hm1c : countCh '\x7d' (indentPub m1r) = 1)
    (hm2o : countCh '\x7b' (indentPub m2r) = 1) (hm2c : countCh '\x7d' (indentPub m2r) = 0)
    (hbody : ∀ b ∈ body, countCh '\x7b' b = 0 ∧ countCh '\x7d' b = 0)
    (hcjo : countCh '\x7b' closeJ = 0) (hcjc : countCh '\x7d' closeJ = 1)
    (hcco : countCh '\x7b' ('\x7d' :: ccr) = 0) (hccc : countCh '\x7d' ('\x7d' :: ccr) = 1) :
    extract_curly_lines
        (pubClassFoo :: indentPub m1r :: indentPub m2r :: (body ++ closeJ :: [('\x7d' :: ccr)]))
        "java" =
      [pubClassFoo, indentPub m1r, elisionJava, indentPub m2r, elisionJava, ('\x7d' :: ccr)] ∧
    (extract_curly_lines
        (pubClassFoo :: indentPub m1r :: indentPub m2r :: (body ++ closeJ :: [('\x7d' :: ccr)]))
        "java").count elisionJava = 2 ∧
    ∀ b ∈ body, b ≠ elisionJava →
      b ∉ extract_curly_lines
        (pubClassFoo :: indentPub m1r :: indentPub m2r :: (body ++ closeJ :: [('\x7d' :: ccr)]))
        "java" := by
  have hpos : (0 : Int) < ((1 : Nat) : Int) := by norm_num
  have hM : memberSigLoop
      ((indentPub m1r :: indentPub m2r :: (body ++ closeJ :: [('\x7d' :: ccr)])).length + 1)
      (indentPub m1r :: indentPub m2r :: (body ++ closeJ :: [('\x7d' :: ccr)]))
      1 "java" ([] ++ [pubClassFoo]) =
      ([], [pubClassFoo, indentPub m1r, elisionJava, indentPub m2r, elisionJava,
        ('\x7d' :: ccr)]) := by
    rw [member_line_step, hm1o, hm1c, if_pos hpos]
    have har1 : ((1 : Nat) : Int) - ((1 : Nat) : Int) = 0 := by norm_num
    rw [har1, skipBraceGo_zero]
    rw [show (indentPub m1r :: indentPub m2r ::
        (body ++ closeJ :: [('\x7d' :: ccr)])).length =
      (indentPub m2r :: (body ++ closeJ :: [('\x7d' :: ccr)])).length + 1 from
        List.length_cons _ _]
    rw [member_line_step, hm2o, hm2c, if_pos hpos]
    have har2 : ((1 : Nat) : Int) - ((0 : Nat) : Int) = 1 := by norm_num
    rw [har2, skipBraceGo_through body hbody closeJ ⟨hcjo, hcjc⟩]
    rw [show (indentPub m2r :: (body ++ closeJ :: [('\x7d' :: ccr)])).length =
      ((body ++ closeJ :: [('\x7d' :: ccr)]).length) + 1 from List.length_cons _ _]
    rw [show (body ++ closeJ :: [('\x7d' :: ccr)]).length = (body.length + 1) + 1 from by
      simp [List.length_append]]
    rw [member_close_step, hcco, hccc]
    have har3 : (1 : Int) - ((1 : Nat) : Int) + ((0 : Nat) : Int) = 0 := by norm_num
    rw [har3, memberSigLoop_done]
    rw [indentPub_indent, indentPub_indent]
    rfl
  have hout : extract_curly_lines
      (pubClassFoo :: indentPub m1r :: indentPub m2r :: (body ++ closeJ :: [('\x7d' :: ccr)]))
      "java" =
      [pubClassFoo, indentPub m1r, elisionJava, indentPub m2r, elisionJava,
        ('\x7d' :: ccr)] := by
    show (extractCurlyLoop
        ((pubClassFoo :: indentPub m1r :: indentPub m2r ::
          (body ++ closeJ :: [('\x7d' :: ccr)])).length + 1)
        (pubClassFoo :: indentPub m1r :: indentPub m2r :: (body ++ closeJ :: [('\x7d' :: ccr)]))
        "java" []).2 = _
    rw [curly_cls_step, hM, extractCurlyLoop_nil]
  have hm1ne : indentPub m1r ≠ elisionJava := by
    intro h
    rw [h] at hm1o
    simp [elisionJava, countCh] at hm1o
  have hm2ne : indentPub m2r ≠ elisionJava := by
    intro h
    rw [h] at hm2o
    simp [elisionJava, countCh] at hm2o
  have hclsne : pubClassFoo ≠ elisionJava := by decide
  have hccne : ('\x7d' :: ccr) ≠ elisionJava := by
    intro h
    rw [h] at hccc
    simp [elisionJava, countCh] at hccc
  refine ⟨hout, ?_, ?_⟩
  · rw [hout]
    have h1 : (pubClassFoo == elisionJava) = false := by
      rw [beq_eq_false_iff_ne]; exact hclsne
    have h2 : (indentPub m1r == elisionJava) = false := by
      rw [beq_eq_false_iff_ne]; exact hm1ne
    have h3 : (indentPub m2r == elisionJava) = false := by
      rw [beq_eq_false_iff_ne]; exact hm2ne
    have h4 : (('\x7d' :: ccr) == elisionJava) = false := by
      rw [beq_eq_false_iff_ne]; exact hccne
    rw [List.count_cons, List.count_cons, List.count_cons, List.count_cons,
      List.count_cons, List.count_cons, h1, h2, h3, h4]
    simp
  · intro b hb hbell hmem
    have hbcnt := hbody b hb
    rw [hout] at hmem
    rcases List.mem_cons.mp hmem with h | hmem
    · rw [h] at hbcnt
      exact absurd hbcnt.1 (by decide)
    rcases List.mem_cons.mp hmem with h | hmem
    · rw [h] at hbcnt
      rw [hm1o] at hbcnt
      exact absurd hbcnt.1 (by omega)
    rcases List.mem_cons.mp hmem with h | hmem
    · exact hbell h
    rcases List.mem_cons.mp hmem with h | hmem
    · rw [h] at hbcnt
      rw [hm2o] at hbcnt
      exact absurd hbcnt.1 (by omega)
    rcases List.mem_cons.mp hmem with h | hmem
    · exact hbell h
    rcases List.mem_cons.mp hmem with h | hmem
    · rw [h] at hbcnt
      rw [hccc] at hbcnt
      exact absurd hbcnt.2 (by omega)
    · exact absurd hmem (List.not_mem_nil b)

/-- The C8 scenario as a concrete Java source: a class with a one-liner
method and a multi-statement method. -/
def c8Input : List Line :=
  ["public class Foo \x7b", "    public int one() \x7b return 1; \x7d",
   "    public int two() \x7b", "        int a = 1;", "        int b = 2;",
   "        return a + b;", "    \x7d", "\x7d"].map String.toList

/-- C8 counterexample: on a Java class with a one-liner method and a
multi-statement method, the extracted output does contain a statement
body — the one-liner's body text "return 1;" is retained verbatim on its
kept signature line — so the output is not free of statement bodies. -/
theorem C8_counterexample :
    "    public int one() \x7b return 1; \x7d".toList ∈ extract_curly_lines c8Input "java" ∧
    containsSub "return 1;".toList
      ("    public int one() \x7b return 1; \x7d".toList) = true := by decide

def c8m1r : Line := "int one() \x7b return 1; \x7d".toList

def c8m2r : Line := "int two() \x7b".toList

def c8bodyW : List Line :=
  ["        int a = 1;", "        int b = 2;", "        return a + b;"].map String.toList

def c8closeJ : Line := "    \x7d".toList

theorem C8_corrected_witness :
    (countCh '\x7b' (indentPub c8m1r) = 1 ∧ countCh '\x7d' (indentPub c8m1r) = 1 ∧
     countCh '\x7b' (indentPub c8m2r) = 1 ∧ countCh '\x7d' (indentPub c8m2r) = 0) ∧
    extract_curly_lines (pubClassFoo :: indentPub c8m1r :: indentPub c8m2r ::
        (c8bodyW ++ c8closeJ :: [('\x7d' :: ([] : List Char))])) "java" =
      [pubClassFoo, indentPub c8m1r, elisionJava, indentPub c8m2r, elisionJava,
        ('\x7d' :: ([] : List Char))] :=
  ⟨⟨by decide, by decide, by decide, by decide⟩,
   (C8_corrected c8m1r c8m2r c8bodyW c8closeJ [] (by decide) (by decide) (by decide)
      (by decide) (by decide) (by decide) (by decide) (by decide) (by decide)).1⟩
